import Mathlib

/-! # rotateloghook: a shallow embedding of `pkg/rotateloghook/rotatelog.go`

The rotating log writer is embedded as pure functions that pass the writer
(`RotateLog`) and the file system (`FS`) explicitly.  Every Go method that
mutates the receiver returns the new receiver; every call that touches the
disk takes the file system and, when it changes it, returns the new one.

Conventions.

* A `time.Time` is the instant it denotes, an integer count of nanoseconds
  since the zero `time.Time`; a `time.Duration` is an `Int` of nanoseconds and
  `Sub` saturates at the `int64` bounds as in Go.
* A `Clock` is the sequence of readings its `Now()` returns together with the
  number of readings already taken, so that a clock may move between two
  calls made by one operation.
* Paths are compared as strings.  The file system maps a path to a regular
  file or a symbolic link; `os.Stat` follows links, `os.Lstat` does not.
-/

namespace RotateLogHook

/-! ## Time -/

/-- An instant: nanoseconds since the zero `time.Time`. -/
abbrev Time := Int

/-- A `time.Duration`: nanoseconds, an `int64`. -/
abbrev Duration := Int

/-- Largest `time.Duration`. -/
def maxDuration : Duration := 2 ^ 63 - 1

/-- Smallest `time.Duration`. -/
def minDuration : Duration := -(2 ^ 63)

/-- The constant `time.Hour`. -/
def Hour : Duration := 3600 * 1000000000

/-- Method `t.Sub(u)`: the difference of two instants, saturated to the `int64` range. -/
def Sub (t u : Time) : Duration :=
  if t - u > maxDuration then maxDuration
  else if t - u < minDuration then minDuration
  else t - u

/-- A `Clock`: `readings k` is what the `k`-th call of `Now()` returns and
`calls` counts the calls made so far. -/
structure Clock where
  readings : Nat → Time
  calls : Nat

/-- Method `c.Now()`: the next reading, and the clock after the call. -/
def Clock.Now (c : Clock) : Time × Clock :=
  (c.readings c.calls, { c with calls := c.calls + 1 })

/-! ## File system -/

/-- What a path names: a regular file with its bytes and modification time,
or a symbolic link with its target and its own modification time. -/
inductive Node where
  | file (data : List UInt8) (modTime : Time)
  | link (target : String) (modTime : Time)

/-- The part of `os.FileInfo` the writer reads. -/
structure FileInfo where
  size : Int
  modTime : Time
  symlink : Bool

/-- Result of `os.Stat` / `os.Lstat`: the info, `os.ErrNotExist`, or any
other error (permission denied, too many links, ...). -/
inductive StatResult where
  | info (fi : FileInfo)
  | errNotExist
  | errOther

/-- State of the disk as the writer can observe and change it.
`denied`, `openFails`, `writeFails`, `symlinkFails` and `renameFails` say on
which paths the corresponding system call fails; `glob` is the listing
`filepath.Glob` returns for a pattern (`none` for `ErrBadPattern`); `now` is
the time the kernel stamps on a file it creates or extends; `purging` holds
the paths handed to the background removal task. -/
structure FS where
  nodes : String → Option Node
  denied : String → Bool
  openFails : String → Bool
  writeFails : String → Bool
  symlinkFails : String → Bool
  renameFails : String → Bool
  glob : String → Option (List String)
  now : Time
  purging : List (Finset String)

/-- Directory part of a path, up to and including the last slash. -/
def dirOf (p : String) : String :=
  ⟨(p.data.reverse.dropWhile (fun c => c != '/')).reverse⟩

/-- Path a link at `l` with target `t` refers to: `t` itself when absolute,
else `t` taken from the directory of the link. -/
def linkTarget (l t : String) : String :=
  if t.data.head? = some '/' then t else dirOf l ++ t

/-- Path resolution of `os.Stat` with a bound on the number of links followed. -/
def FS.follow (fs : FS) : Nat → String → StatResult
  | 0, _ => .errOther
  | k + 1, p =>
    if p = "" then .errNotExist
    else if fs.denied p then .errOther
    else
      match fs.nodes p with
      | none => .errNotExist
      | some (.file d m) => .info ⟨d.length, m, false⟩
      | some (.link t _) => fs.follow k (linkTarget p t)

/-- Call `os.Stat(p)`: follows symbolic links (at most 40 of them). -/
def FS.Stat (fs : FS) (p : String) : StatResult := fs.follow 41 p

/-- Call `os.Lstat(p)`: does not follow a final symbolic link. -/
def FS.Lstat (fs : FS) (p : String) : StatResult :=
  if p = "" then .errNotExist
  else if fs.denied p then .errOther
  else
    match fs.nodes p with
    | none => .errNotExist
    | some (.file d m) => .info ⟨d.length, m, false⟩
    | some (.link t m) => .info ⟨t.length, m, true⟩

/-- A file with this name exists as far as `os.Stat` can tell: the call does
not fail with `os.ErrNotExist`. -/
def FS.Exists (fs : FS) (p : String) : Prop := fs.Stat p ≠ .errNotExist

/-! ## Errors -/

/-- The errors the package returns. -/
inductive Error where
  /-- Message `invalid strftime pattern`. -/
  | invalidPattern
  /-- Message `options MaxAge and RotationCount cannot be both set`. -/
  | conflictingRetention
  /-- Message `can't create a name with a counter based on the current file ...`. -/
  | nameExhausted (expectedFn : String)
  /-- Message `failed to open file ...`. -/
  | openFailed (filename : String)
  /-- Message `failed to rotate: failed to create new symlink`. -/
  | symlinkFailed
  /-- Message `failed to rotate: failed to rename new symlink`. -/
  | renameFailed
  /-- Message `failed to rotate:` wrapping an error of `filepath.Glob`. -/
  | globFailed
  /-- The error `os.ErrInvalid`, what a nil `*os.File` answers. -/
  | invalid
  /-- An error of the underlying `write`. -/
  | writeFailed
  deriving DecidableEq, Repr

/-! ## The writer -/

/-- A rotation predicate registered by `New`: the closure built by
`buildRotationTimeCondition` or the one built by `buildSizeCondition`. -/
inductive RotationPredicate where
  | time
  | size
  deriving DecidableEq, Repr

/-- A purge checker registered by `New`: the closure built by
`buildFileAgeChecker` or the one built by `buildFileCountChecker`. -/
inductive PurgeChecker where
  | age
  | count
  deriving DecidableEq, Repr

/-- Payload offered on the rotation channel. -/
structure RotationEvent where
  PrevFileName : String
  NewFileName : String
  deriving DecidableEq, Repr

/-- Modelled from the spec: the `RotateLog` struct, whose declaration is not
among the sources; the fields are those the methods of `rotatelog.go` read
and write.  `pattern` is the compiled strftime pattern as its `FormatString`;
`outFh` is the path the open handle writes to, `none` for a nil handle;
`generation` is the Go counter, which starts at 0 and is only incremented or
reset to 0; `notified` lists the events offered on `rotationNotifier`. -/
structure RotateLog where
  clock : Clock
  curFn : String
  generation : Nat
  globPattern : String
  lastTs : Time
  linkName : String
  maxAge : Duration
  outFh : Option String
  pattern : Time → String
  rotationTime : Duration
  rotationCount : Int
  rotationSize : Int
  rotationConditions : List RotationPredicate
  purgeCheckers : List PurgeChecker
  notified : List RotationEvent

/-! ## Name builder -/

/-- Backward scan of `path.Ext`: `rev` holds the bytes left of the cursor,
nearest first, `acc` the bytes already passed. -/
def extScan : List Char → List Char → List Char
  | [], _ => []
  | c :: rev, acc =>
    if c = '/' then []
    else if c = '.' then c :: acc
    else extScan rev (c :: acc)

/-- Function `path.Ext(p)`: the suffix beginning at the final dot of the final
slash-separated element, empty if there is no dot. -/
def pathExt (p : String) : String := ⟨extScan p.data.reverse []⟩

/-- Function `strings.TrimSuffix(s, suffix)`. -/
def TrimSuffix (s suffix : String) : String :=
  if suffix.data.isSuffixOf s.data then ⟨s.data.take (s.data.length - suffix.data.length)⟩
  else s

/-- The candidate name a pass of the loop of `counterNameBuilder` formats:
`fmt.Sprintf("%s_%v%s", fp, generation, ext)` with an extension,
`fmt.Sprintf("%s_%v", expectedFn, generation)` without. -/
def candidate (expectedFn fp ext : String) (generation : Nat) : String :=
  if ext.length > 0 then fp ++ "_" ++ toString generation ++ ext
  else expectedFn ++ "_" ++ toString generation

/-- The loop of `counterNameBuilder`, `k` passes left: each pass increments
`generation` and returns the candidate if `os.Stat` on it fails with
`os.ErrNotExist`. -/
def counterLoop (fs : FS) (expectedFn fp ext : String) : Nat → Nat → Nat × Option String
  | 0, generation => (generation, none)
  | k + 1, generation =>
    let generation := generation + 1
    let res := candidate expectedFn fp ext generation
    match fs.Stat res with
    | .errNotExist => (generation, some res)
    | _ => counterLoop fs expectedFn fp ext k generation

/-- Method `rl.counterNameBuilder(expectedFn)`: at most 1000 attempts. -/
def counterNameBuilder (rl : RotateLog) (fs : FS) (expectedFn : String) :
    RotateLog × Except Error String :=
  let ext := pathExt expectedFn
  let fp := if ext.length > 0 then TrimSuffix expectedFn ext else ""
  match counterLoop fs expectedFn fp ext 1000 rl.generation with
  | (g, some res) => ({ rl with generation := g }, .ok res)
  | (g, none) => ({ rl with generation := g }, .error (.nameExhausted expectedFn))

/-- Method `rl.genFilename()`. -/
def genFilename (rl : RotateLog) : RotateLog × String :=
  let (now, clock) := rl.clock.Now
  ({ rl with clock := clock }, rl.pattern now)

/-- Method `rl.newNameBuilder()`. -/
def newNameBuilder (rl : RotateLog) (fs : FS) : RotateLog × Except Error String :=
  let (rl, expectedFn) := genFilename rl
  let fileExist : Bool :=
    match fs.Stat expectedFn with
    | .errNotExist => false
    | _ => true
  if rl.curFn ≠ expectedFn ∧ ¬ fileExist then
    ({ rl with generation := 0 }, .ok expectedFn)
  else
    counterNameBuilder rl fs expectedFn

/-! ## System calls that change the disk -/

/-- Path resolution of `os.OpenFile` with `O_CREATE|O_APPEND|O_WRONLY`: the
path finally opened and the disk afterwards, the file being created empty
when it is missing; `none` when the open fails. -/
def FS.openAt (fs : FS) : Nat → String → Option (String × FS)
  | 0, _ => none
  | k + 1, p =>
    if p = "" ∨ fs.denied p = true ∨ fs.openFails p = true then none
    else
      match fs.nodes p with
      | none => some (p, { fs with nodes := Function.update fs.nodes p (some (.file [] fs.now)) })
      | some (.file _ _) => some (p, fs)
      | some (.link t _) => fs.openAt k (linkTarget p t)

/-- Call `os.OpenFile(name, os.O_CREATE|os.O_APPEND|os.O_WRONLY, 0644)`: the
handle, named by the path it appends to, and the disk afterwards. -/
def FS.OpenFile (fs : FS) (name : String) : Option (String × FS) := fs.openAt 41 name

/-- Method `Write` of an open `*os.File` in append mode: the bytes are added
at the end of the file and their count is returned; bytes written to a file
that was unlinked meanwhile are not visible under its former path. -/
def FS.Append (fs : FS) (fh : String) (p : List UInt8) : FS × Except Error Nat :=
  if fs.writeFails fh then (fs, .error .writeFailed)
  else
    match fs.nodes fh with
    | some (.file d _) =>
      ({ fs with nodes := Function.update fs.nodes fh (some (.file (d ++ p) fs.now)) },
        .ok p.length)
    | _ => (fs, .ok p.length)

/-- Call `os.Symlink(oldname, newname)`: fails when `newname` exists. -/
def FS.Symlink (fs : FS) (oldname newname : String) : Option FS :=
  if newname = "" ∨ fs.symlinkFails newname = true ∨ (fs.nodes newname).isSome = true then none
  else some { fs with nodes := Function.update fs.nodes newname (some (.link oldname fs.now)) }

/-- Call `os.Rename(oldpath, newpath)`: replaces `newpath`. -/
def FS.Rename (fs : FS) (oldpath newpath : String) : Option FS :=
  if newpath = "" ∨ fs.renameFails newpath = true then none
  else
    match fs.nodes oldpath with
    | none => none
    | some n =>
      some { fs with
        nodes := Function.update (Function.update fs.nodes oldpath none) newpath (some n) }

/-! ## Rotation predicates -/

/-- The closure returned by `rl.buildSizeCondition()`. -/
def sizeCondition (rl : RotateLog) (fs : FS) : RotateLog × Bool × String :=
  match fs.Stat rl.curFn with
  | .errNotExist => (rl, false, "")
  | .info fi =>
    if rl.rotationSize > 0 ∧ rl.rotationSize < fi.size then
      match newNameBuilder rl fs with
      | (rl, .error _) => (rl, false, "")
      | (rl, .ok s) => (rl, true, s)
    else (rl, false, "")
  | .errOther => (rl, false, "")

/-- The closure returned by `rl.buildRotationTimeCondition()`. -/
def rotationTimeCondition (rl : RotateLog) (fs : FS) : RotateLog × Bool × String :=
  let (now, clock) := rl.clock.Now
  let rl := { rl with clock := clock }
  let elapsedTime := Sub now rl.lastTs
  if elapsedTime > rl.rotationTime then
    match newNameBuilder rl fs with
    | (rl, .error _) => (rl, false, "")
    | (rl, .ok s) => (rl, true, s)
  else (rl, false, "")

/-- Call of a registered rotation predicate. -/
def RotationPredicate.call (c : RotationPredicate) (rl : RotateLog) (fs : FS) :
    RotateLog × Bool × String :=
  match c with
  | .time => rotationTimeCondition rl fs
  | .size => sizeCondition rl fs

/-- The loop of `checkConditions` over the conditions not yet asked. -/
def checkLoop (fs : FS) : RotateLog → List RotationPredicate → RotateLog × Bool × String
  | rl, [] => (rl, false, "")
  | rl, condition :: rest =>
    match condition.call rl fs with
    | (rl, true, filename) => (rl, true, filename)
    | (rl, false, _) => checkLoop fs rl rest

/-- Method `rl.checkConditions()`. -/
def checkConditions (rl : RotateLog) (fs : FS) : RotateLog × Bool × String :=
  checkLoop fs rl rl.rotationConditions

/-! ## Purge checkers -/

/-- The closure returned by `rl.buildFileAgeChecker()`, `result` being the
set of paths to purge. -/
def fileAgeChecker (fs : FS) : RotateLog → List String → Finset String → RotateLog × Finset String
  | rl, [], result => (rl, result)
  | rl, fp :: rest, result =>
    match fs.Lstat fp with
    | .info fl =>
      if fl.symlink then fileAgeChecker fs rl rest result
      else
        let (now, clock) := rl.clock.Now
        let rl := { rl with clock := clock }
        let fileAge := Sub now fl.modTime
        if fileAge > rl.maxAge then fileAgeChecker fs rl rest (insert fp result)
        else fileAgeChecker fs rl rest result
    | _ => fileAgeChecker fs rl rest result

/-- The closure returned by `rl.buildFileCountChecker()`. -/
def fileCountChecker (rl : RotateLog) (filesList : List String) (result : Finset String) :
    Finset String :=
  if rl.rotationCount > 0 then
    if rl.rotationCount ≥ (filesList.length : Int) then result
    else
      let list := filesList.take (filesList.length - rl.rotationCount.toNat)
      list.foldl (fun result file => insert file result) result
  else result

/-- Call of a registered purge checker; neither checker returns an error. -/
def PurgeChecker.call (c : PurgeChecker) (rl : RotateLog) (fs : FS) (filesList : List String)
    (result : Finset String) : RotateLog × Finset String :=
  match c with
  | .age => fileAgeChecker fs rl filesList result
  | .count => (rl, fileCountChecker rl filesList result)

/-! ## Rotation -/

/-- The symbolic-link step of `rotateNolock`. -/
def updateLink (rl : RotateLog) (fs : FS) (filename : String) : FS × Option Error :=
  if rl.linkName ≠ "" then
    let tmpLinkName := filename ++ "_symlink"
    match fs.Symlink filename tmpLinkName with
    | none => (fs, some .symlinkFailed)
    | some fs =>
      match fs.Rename tmpLinkName rl.linkName with
      | none => (fs, some .renameFailed)
      | some fs => (fs, none)
  else (fs, none)

/-- Method `rl.rotateNolock(filename)`: the removal of the selected files is
left to a background task and recorded in `purging`. -/
def rotateNolock (rl : RotateLog) (fs : FS) (filename : String) : RotateLog × FS × Option Error :=
  match updateLink rl fs filename with
  | (fs, some err) => (rl, fs, some err)
  | (fs, none) =>
    match fs.glob rl.globPattern with
    | none => (rl, fs, some .globFailed)
    | some matched =>
      let (rl, filesToPurge) :=
        rl.purgeCheckers.foldl
          (fun (acc : RotateLog × Finset String) purgeChecker =>
            purgeChecker.call acc.1 fs matched acc.2)
          (rl, ∅)
      if filesToPurge.card ≤ 0 then (rl, fs, none)
      else (rl, { fs with purging := fs.purging ++ [filesToPurge] }, none)

/-- Method `rl.getWriter_nolock(bailOnRotateFail)`: the writer returned is
the path of the handle, `none` for a nil `*os.File`. -/
def getWriter_nolock (rl : RotateLog) (fs : FS) (bailOnRotateFail : Bool) :
    RotateLog × FS × Except Error (Option String) :=
  match checkConditions rl fs with
  | (rl, true, filename) =>
    match fs.OpenFile filename with
    | none => (rl, fs, .error (.openFailed filename))
    | some (fh, fs) =>
      match rotateNolock rl fs filename with
      | (rl, fs, err) =>
        match err, bailOnRotateFail with
        | some err, true => (rl, fs, .error err)
        | _, _ =>
          let stashedFileName := rl.curFn
          let (now, clock) := rl.clock.Now
          ({ rl with
              outFh := some fh
              curFn := filename
              lastTs := now
              clock := clock
              notified := rl.notified ++ [⟨stashedFileName, filename⟩] },
            fs, .ok (some fh))
  | (rl, false, _) => (rl, fs, .ok rl.outFh)

/-- Method `rl.Write(p)`: the count of bytes written or the error. -/
def Write (rl : RotateLog) (fs : FS) (p : List UInt8) : RotateLog × FS × Except Error Nat :=
  match getWriter_nolock rl fs false with
  | (rl, fs, .error err) => (rl, fs, .error err)
  | (rl, fs, .ok none) => (rl, fs, .error .invalid)
  | (rl, fs, .ok (some out)) =>
    let (fs, r) := fs.Append out p
    (rl, fs, r)

/-- Method `rl.CurrentFileName()`. -/
def CurrentFileName (rl : RotateLog) : String := rl.curFn

/-- Method `rl.Rotate()`. -/
def Rotate (rl : RotateLog) (fs : FS) : RotateLog × FS × Option Error :=
  match getWriter_nolock rl fs true with
  | (rl, fs, .error err) => (rl, fs, some err)
  | (rl, fs, .ok _) => (rl, fs, none)

/-- Method `rl.Close()`. -/
def Close (rl : RotateLog) : RotateLog × Option Error :=
  match rl.outFh with
  | none => (rl, none)
  | some _ => ({ rl with outFh := none }, none)

/-! ## Construction -/

/-- Character class of the first conversion regexp, `[%+A-Za-z]`. -/
def isSpecifierChar (c : Char) : Bool :=
  c = '%' || c = '+' || ('A' ≤ c && c ≤ 'Z') || ('a' ≤ c && c ≤ 'z')

/-- Replacement of every match of `%[%+A-Za-z]` by `*`, matches being taken
leftmost and not overlapping, as a scan from the left; `pending` says that
the character just passed is a `%` not yet written out. -/
def replaceSpecifiers : Bool → List Char → List Char
  | false, [] => []
  | true, [] => ['%']
  | false, c :: tl =>
    if c = '%' then replaceSpecifiers true tl else c :: replaceSpecifiers false tl
  | true, c :: tl =>
    if isSpecifierChar c then '*' :: replaceSpecifiers false tl
    else '%' :: c :: replaceSpecifiers false tl

/-- Replacement of every match of `\*+`, a maximal run of stars, by `*`, as a
scan from the left; `inRun` says that the character just passed is a star. -/
def collapseStars : Bool → List Char → List Char
  | _, [] => []
  | inRun, c :: tl =>
    if c = '*' then
      if inRun then collapseStars true tl else '*' :: collapseStars true tl
    else c :: collapseStars false tl

/-- The two regexps of `patternConversionRegexps`, each as its
`ReplaceAllString(·, "*")`. -/
def patternConversionRegexps : List (String → String) :=
  [fun s => ⟨replaceSpecifiers false s.data⟩, fun s => ⟨collapseStars false s.data⟩]

/-- An `Option` of the constructor: its name and its value. -/
inductive Opt where
  | clock (c : Clock)
  | linkName (s : String)
  | maxAge (d : Duration)
  | rotationCount (n : Int)
  | rotationTime (d : Duration)
  | rotationSize (s : Int)

/-- Option `WithClock(c)`. -/
def WithClock (c : Clock) : Opt := .clock c

/-- Option `WithLinkName(s)`. -/
def WithLinkName (s : String) : Opt := .linkName s

/-- Option `WithMaxAge(d)`. -/
def WithMaxAge (d : Duration) : Opt := .maxAge d

/-- Option `WithRotationTime(d)`. -/
def WithRotationTime (d : Duration) : Opt := .rotationTime d

/-- Option `WithRotationCount(n)`. -/
def WithRotationCount (n : Int) : Opt := .rotationCount n

/-- Option `WithRotationSize(s)`. -/
def WithRotationSize (s : Int) : Opt := .rotationSize s

/-- The variables of `New` that its loop over the options assigns: the
writer under construction and the locals `maxAge` and `rotationTime`.  The
local `rotationCount` is assigned nowhere in the loop. -/
structure NewVars where
  res : RotateLog
  maxAge : Duration
  rotationTime : Duration

/-- One pass of the loop of `New` over the options. -/
def applyOption (v : NewVars) : Opt → NewVars
  | .clock c => { v with res := { v.res with clock := c } }
  | .linkName s => { v with res := { v.res with linkName := s } }
  | .maxAge d =>
    let maxAge := if d < 0 then 0 else d
    { v with
      maxAge := maxAge
      res := { v.res with maxAge := maxAge, purgeCheckers := v.res.purgeCheckers ++ [.age] } }
  | .rotationCount n =>
    { v with
      res := { v.res with rotationCount := n, purgeCheckers := v.res.purgeCheckers ++ [.count] } }
  | .rotationTime d =>
    let rotationTime := if d < 0 then 0 else d
    { v with
      rotationTime := rotationTime
      res := { v.res with
        rotationTime := rotationTime
        rotationConditions := v.res.rotationConditions ++ [.time] } }
  | .rotationSize s =>
    { v with
      res := { v.res with
        rotationSize := s
        rotationConditions := v.res.rotationConditions ++ [.size] } }

/-- Constructor `New(p, options...)`.  `strftimeNew` is `strftime.New` of the
strftime library, answering the compiled pattern as its `FormatString` or
`none` for a pattern it rejects; `Local` is the default clock. -/
def New (strftimeNew : String → Option (Time → String)) (Local : Clock) (p : String)
    (options : List Opt) : Except Error RotateLog :=
  let globPattern := patternConversionRegexps.foldl (fun globPattern re => re globPattern) p
  match strftimeNew p with
  | none => .error .invalidPattern
  | some pattern =>
    let clock := Local
    let rotationTime : Duration := 24 * Hour
    let rotationCount : Int := 0
    let maxAge : Duration := 0
    let res : RotateLog :=
      { clock := clock
        curFn := ""
        generation := 0
        globPattern := globPattern
        lastTs := 0
        linkName := ""
        maxAge := maxAge
        outFh := none
        pattern := pattern
        rotationTime := rotationTime
        rotationCount := rotationCount
        rotationSize := -1
        rotationConditions := []
        purgeCheckers := []
        notified := [] }
    let v := options.foldl applyOption ⟨res, maxAge, rotationTime⟩
    if v.maxAge > 0 ∧ rotationCount > 0 then .error .conflictingRetention
    else
      -- the default of 7 days is given to the local variable only
      let _maxAge : Duration := if v.maxAge = 0 ∧ rotationCount = 0 then 7 * 24 * Hour else v.maxAge
      .ok v.res

/-! ## Definitions that follow the words of the specification -/

/-- The final slash-separated element of a path. -/
def finalElement (name : List Char) : List Char :=
  (name.reverse.takeWhile (fun c => c != '/')).reverse

/-- Split of a name on its last dot: what precedes the dot, and the dot with
what follows it. -/
def lastDotSplit (name : List Char) : List Char × List Char :=
  ((name.reverse.dropWhile (fun c => c != '.')).tail.reverse,
    '.' :: (name.reverse.takeWhile (fun c => c != '.')).reverse)

/-- The name with the suffix `_n` as the specification words it: inserted
before the extension when the final path element has a dot, else appended. -/
def suffixedName (name : String) (n : Nat) : String :=
  if '.' ∈ finalElement name.data then
    ⟨(lastDotSplit name.data).1⟩ ++ "_" ++ toString n ++ ⟨(lastDotSplit name.data).2⟩
  else name ++ "_" ++ toString n

/-- The list of paths sorted lexicographically ascending, paths being compared
character by character. -/
def sortedAscending (files : List String) : List String :=
  files.insertionSort (fun a b => a.data ≤ b.data)

/-- Number of clock readings the age checker takes over a list of paths: one
for each path on which `os.Lstat` succeeds and which is not a symbolic link. -/
def ageReadings (fs : FS) : List String → Nat
  | [] => 0
  | fp :: rest =>
    (match fs.Lstat fp with
      | .info fl => if fl.symlink then 0 else 1
      | _ => 0) + ageReadings fs rest

/-- The path `p` stands in the list at a place where `os.Lstat` succeeds on
it, it is not a symbolic link, and the reading of the clock taken for that
place minus its modification time is greater than `maxAge`. -/
def AgedOut (rl : RotateLog) (fs : FS) (files : List String) (p : String) : Prop :=
  ∃ i fl, files.get? i = some p ∧ fs.Lstat p = .info fl ∧ fl.symlink = false ∧
    rl.maxAge < Sub (rl.clock.readings (rl.clock.calls + ageReadings fs (files.take i))) fl.modTime

/-- Whether the text begins with a character of the class `[%+A-Za-z]`. -/
def headIsSpecifierChar : List Char → Bool
  | [] => false
  | d :: _ => isSpecifierChar d

/-- Whether a conversion specifier, a `%` followed by `%`, `+` or an ASCII
letter, occurs in the text. -/
def hasSpecifier : List Char → Bool
  | [] => false
  | c :: tl => (c == '%' && headIsSpecifierChar tl) || hasSpecifier tl

/-- Whether the text begins with a `*`. -/
def headIsStar : List Char → Bool
  | [] => false
  | d :: _ => d == '*'

/-- Whether two adjacent `*` occur in the text. -/
def hasStarRun : List Char → Bool
  | [] => false
  | c :: tl => (c == '*' && headIsStar tl) || hasStarRun tl

/-- The text with each conversion specifier replaced by `*`, read off the
regexp `%[%+A-Za-z]`: wherever a `%` and a character of the class stand next
to each other, the two give one `*` and the scan goes on after them; any
other character is kept. -/
def replaceAllSpecifiers : List Char → List Char
  | [] => []
  | [c] => [c]
  | c :: d :: rest =>
    if c = '%' ∧ isSpecifierChar d = true then '*' :: replaceAllSpecifiers rest
    else c :: replaceAllSpecifiers (d :: rest)
termination_by l => l.length

/-- The text with each run of `*` collapsed into one, read off the regexp
`\*+`: a `*` that is followed by another is dropped. -/
def collapseAllStars : List Char → List Char
  | [] => []
  | [c] => [c]
  | c :: d :: rest =>
    if c = '*' ∧ d = '*' then collapseAllStars (d :: rest)
    else c :: collapseAllStars (d :: rest)
termination_by l => l.length

/-- The conversion of a pattern into its glob mask, as `New` computes it. -/
def globMask (p : String) : String :=
  patternConversionRegexps.foldl (fun globPattern re => re globPattern) p

/-! ## Sample inputs -/

/-- A disk holding exactly the listed nodes, on which no system call fails
for a reason other than the nodes present. -/
def diskOf (files : List (String × Node)) : FS :=
  { nodes := fun p => files.lookup p
    denied := fun _ => false
    openFails := fun _ => false
    writeFails := fun _ => false
    symlinkFails := fun _ => false
    renameFails := fun _ => false
    glob := fun _ => some (files.map Prod.fst)
    now := 0
    purging := [] }

/-- A clock that always answers `t`. -/
def fixedClock (t : Time) : Clock := ⟨fun _ => t, 0⟩

/-- A writer in its initial state whose pattern formats every instant as
`app.log`, with a fixed clock and no predicate or checker registered. -/
def sampleWriter : RotateLog :=
  { clock := fixedClock 100
    curFn := ""
    generation := 0
    globPattern := "app.log"
    lastTs := 0
    linkName := ""
    maxAge := 0
    outFh := none
    pattern := fun _ => "app.log"
    rotationTime := 24 * Hour
    rotationCount := 0
    rotationSize := -1
    rotationConditions := []
    purgeCheckers := []
    notified := [] }

/-- A disk on which `app.log` and `app_1.log` are present. -/
def sampleDisk : FS := diskOf [("app.log", .file [] 0), ("app_1.log", .file [] 0)]

/-- Instant of 2024-01-01 00:00:00 UTC: 738885 days after the zero `time.Time`. -/
def jan2024 : Time := 738885 * 86400 * 1000000000

/-- A `strftime.New` that accepts every pattern and compiles it to a
formatter answering `app.log` at every instant. -/
def constStrftime : String → Option (Time → String) := fun _ => some (fun _ => "app.log")

/-- A disk holding a log last written at the start of 2024, a log written
nine hours later, and the link `current` to the newer one. -/
def agedDisk : FS :=
  diskOf [("current", .link "new.log" (jan2024 + 9 * Hour)),
    ("new.log", .file [] (jan2024 + 9 * Hour)), ("old.log", .file [] jan2024)]

/-- A writer with `maxAge` of one hour whose clock stands nine hours into 2024. -/
def agedWriter : RotateLog :=
  { sampleWriter with maxAge := Hour, clock := fixedClock (jan2024 + 9 * Hour) }

/-- A clock answering the start of 2024 at its first three readings and two
hours later from the fourth on. -/
def steppingClock : Clock := ⟨fun k => if k < 3 then jan2024 else jan2024 + 2 * Hour, 0⟩

/-- The writer `New` builds from the pattern `app.log` with
`WithClock(steppingClock)` and `WithRotationTime(time.Hour)`. -/
def hourlyWriter : RotateLog :=
  { sampleWriter with
    clock := steppingClock
    globPattern := "app.log"
    rotationTime := Hour
    rotationConditions := [.time] }

/-- First write of two bytes through `hourlyWriter` on an empty disk. -/
def firstWrite : RotateLog × FS × Except Error Nat := Write hourlyWriter (diskOf []) [104, 105]

/-- The writer after that write and a `Close()`. -/
def closedWriter : RotateLog := (Close firstWrite.1).1

/-- Write of one byte through the closed writer, two hours later. -/
def secondWrite : RotateLog × FS × Except Error Nat := Write closedWriter firstWrite.2.1 [33]

/-- The names `app_1.log`, ..., `app_1000.log`. -/
def counterNames : List String :=
  (List.range 1000).map (fun i => "app_" ++ toString (i + 1) ++ ".log")

/-- A disk holding `app.log` and the thousand names `app_1.log`, ...,
`app_1000.log`, all empty. -/
def crowdedDisk : FS :=
  { diskOf [] with
    nodes := fun p => if p = "app.log" ∨ p ∈ counterNames then some (.file [] 0) else none }

/-- The writer `New` builds from the pattern `app.log` with
`WithRotationSize(100)` alone, its clock standing at the start of 2024. -/
def sizeOnlyWriter : RotateLog :=
  { sampleWriter with
    clock := fixedClock jan2024
    rotationSize := 100
    rotationConditions := [.size] }

/-- The constant `time.Second`. -/
def Second : Duration := 1000000000

/-- Civil date, as year, month and day, of the day that lies `days` days
after 0001-01-01 in the proleptic Gregorian calendar. -/
def civilDate (days : Nat) : Nat × Nat × Nat :=
  let z := days + 306
  let era := z / 146097
  let doe := z % 146097
  let yoe := (doe - doe / 1460 + doe / 36524 - doe / 146096) / 365
  let doy := doe - (365 * yoe + yoe / 4 - yoe / 100)
  let mp := (5 * doy + 2) / 153
  let d := doy - (153 * mp + 2) / 5 + 1
  let m := if mp < 10 then mp + 3 else mp - 9
  let y := yoe + era * 400 + (if m ≤ 2 then 1 else 0)
  (y, m, d)

/-- Decimal numeral of `n`, padded with zeros on the left to `width` digits. -/
def zeroPad (width n : Nat) : String :=
  ⟨List.replicate (width - (toString n).length) '0'⟩ ++ toString n

/-- Expansion of the conversion specifier `%c` at the instant `t`, read in
UTC, for the specifiers `%Y %m %d %H %M %S %%`; `none` for any other. -/
def expandSpecifier (t : Time) (c : Char) : Option String :=
  let secs := t.toNat / 1000000000
  let date := civilDate (secs / 86400)
  let sod := secs % 86400
  if c = 'Y' then some (zeroPad 4 date.1)
  else if c = 'm' then some (zeroPad 2 date.2.1)
  else if c = 'd' then some (zeroPad 2 date.2.2)
  else if c = 'H' then some (zeroPad 2 (sod / 3600))
  else if c = 'M' then some (zeroPad 2 (sod % 3600 / 60))
  else if c = 'S' then some (zeroPad 2 (sod % 60))
  else if c = '%' then some "%"
  else none

/-- Expansion of a strftime pattern at the instant `t`; `pending` says that
the character just passed is a `%`.  The result is `none` when the pattern
has a specifier that is not supported or ends in a lone `%`. -/
def expandPattern (t : Time) : Bool → List Char → Option String
  | false, [] => some ""
  | true, [] => none
  | false, c :: tl =>
    if c = '%' then expandPattern t true tl
    else (expandPattern t false tl).map (fun s => ⟨[c]⟩ ++ s)
  | true, c :: tl =>
    match expandSpecifier t c with
    | none => none
    | some f => (expandPattern t false tl).map (fun s => f ++ s)

/-- A `strftime.New` for the specifiers `%Y %m %d %H %M %S %%`, times being
read in UTC: it rejects a pattern it cannot expand, and otherwise answers
the formatter of the pattern. -/
def utcStrftime : String → Option (Time → String) := fun p =>
  match expandPattern 0 false p.data with
  | none => none
  | some _ => some (fun t => (expandPattern t false p.data).getD "")

/-- The writer with its clock advanced by `d`. -/
def advanceClock (d : Duration) (rl : RotateLog) : RotateLog :=
  { rl with clock := ⟨fun k => rl.clock.readings k + d, rl.clock.calls⟩ }

/-- Scenario S1: the writer built from the pattern `log_%Y%m%d.log` with a
clock fixed at 2024-01-01 00:00:00 and `WithRotationTime(10s)`. -/
def s1Writer : RotateLog :=
  match New utcStrftime (fixedClock 0) "log_%Y%m%d.log"
      [WithClock (fixedClock jan2024), WithRotationTime (10 * Second)] with
  | .ok rl => rl
  | .error _ => sampleWriter

/-- Scenario S1: the first write, in an empty directory. -/
def s1Write1 : RotateLog × FS × Except Error Nat := Write s1Writer (diskOf []) [97]

/-- Scenario S1: the second write, 11 seconds after the first. -/
def s1Write2 : RotateLog × FS × Except Error Nat :=
  Write (advanceClock (11 * Second) s1Write1.1) s1Write1.2.1 [98]

/-- Scenario S1: the third write, 11 seconds after the second. -/
def s1Write3 : RotateLog × FS × Except Error Nat :=
  Write (advanceClock (11 * Second) s1Write2.1) s1Write2.2.1 [99]

/-- The hourly writer with `WithLinkName("current")`. -/
def linkWriter : RotateLog := { hourlyWriter with linkName := "current" }

/-- An empty disk on which every `os.Symlink` fails. -/
def noSymlinkDisk : FS := { diskOf [] with symlinkFails := fun _ => true }

/-- An empty disk on which every `os.Rename` fails. -/
def noRenameDisk : FS := { diskOf [] with renameFails := fun _ => true }

/-! # Theorems -/

/-! ## Lemmas on the name builder -/

/-- A successful run of the loop returns the first candidate that `os.Stat`
reports missing, and leaves `generation` at its number. -/
theorem counterLoop_some (fs : FS) (expectedFn fp ext : String) (k g g' : Nat) (res : String)
    (h : counterLoop fs expectedFn fp ext k g = (g', some res)) :
    res = candidate expectedFn fp ext g' ∧ fs.Stat res = .errNotExist ∧ g < g' ∧ g' ≤ g + k ∧
      ∀ m, g < m → m < g' → fs.Stat (candidate expectedFn fp ext m) ≠ .errNotExist := by
  induction k generalizing g with
  | zero => simp [counterLoop] at h
  | succ k ih =>
    unfold counterLoop at h
    simp only at h
    split at h
    · rename_i hs
      simp only [Prod.mk.injEq, Option.some.injEq] at h
      obtain ⟨hg, hr⟩ := h
      subst hg; subst hr
      refine ⟨rfl, hs, by omega, by omega, ?_⟩
      intro m h1 h2; omega
    · rename_i hs
      obtain ⟨h1, h2, h3, h4, h5⟩ := ih (g + 1) h
      refine ⟨h1, h2, by omega, by omega, ?_⟩
      intro m hm1 hm2
      by_cases hm : m = g + 1
      · subst hm; exact fun hc => hs hc
      · exact h5 m (by omega) hm2

/-- A run of the loop that gives up has met `k` candidates in a row that
`os.Stat` does not report missing, and has advanced `generation` by `k`. -/
theorem counterLoop_none (fs : FS) (expectedFn fp ext : String) (k g g' : Nat)
    (h : counterLoop fs expectedFn fp ext k g = (g', none)) :
    g' = g + k ∧
      ∀ m, g < m → m ≤ g + k → fs.Stat (candidate expectedFn fp ext m) ≠ .errNotExist := by
  induction k generalizing g with
  | zero =>
    simp only [counterLoop, Prod.mk.injEq, and_true] at h
    exact ⟨by omega, fun m h1 h2 => by omega⟩
  | succ k ih =>
    unfold counterLoop at h
    simp only at h
    split at h
    · simp at h
    · rename_i hs
      obtain ⟨h1, h2⟩ := ih (g + 1) h
      refine ⟨by omega, ?_⟩
      intro m hm1 hm2
      by_cases hm : m = g + 1
      · subst hm; exact fun hc => hs hc
      · exact h2 m (by omega) (by omega)

/-- The loop gives up exactly when all its candidates are reported present. -/
theorem counterLoop_exhausted (fs : FS) (expectedFn fp ext : String) (k g : Nat)
    (h : ∀ m, g < m → m ≤ g + k → fs.Stat (candidate expectedFn fp ext m) ≠ .errNotExist) :
    counterLoop fs expectedFn fp ext k g = (g + k, none) := by
  induction k generalizing g with
  | zero => simp [counterLoop]
  | succ k ih =>
    unfold counterLoop
    simp only
    split
    · rename_i hs
      exact absurd hs (h (g + 1) (by omega) (by omega))
    · rw [ih (g + 1) (fun m h1 h2 => h m (by omega) (by omega))]
      congr 1; omega

/-- What the backward scan of `path.Ext` returns: the suffix from the last
dot of the final element, or nothing when that element has no dot. -/
theorem extScan_spec (rev acc : List Char) :
    ('.' ∈ rev.takeWhile (fun c => c != '/') →
      ∃ a b, rev = a ++ '.' :: b ∧ (∀ c ∈ a, c ≠ '.' ∧ c ≠ '/') ∧
        extScan rev acc = '.' :: (a.reverse ++ acc)) ∧
    ('.' ∉ rev.takeWhile (fun c => c != '/') → extScan rev acc = []) := by
  induction rev generalizing acc with
  | nil => simp [extScan]
  | cons c rev ih =>
    by_cases hs : c = '/'
    · subst hs
      simp [extScan]
    · by_cases hd : c = '.'
      · subst hd
        constructor
        · intro _
          exact ⟨[], rev, by simp, by simp, by simp [extScan]⟩
        · intro h
          simp at h
      · have htk : List.takeWhile (fun c => c != '/') (c :: rev) =
            c :: List.takeWhile (fun c => c != '/') rev := by
          have hne : (c != '/') = true := by simpa using hs
          simp only [List.takeWhile, hne]
        constructor
        · intro h
          rw [htk] at h
          have h' : '.' ∈ rev.takeWhile (fun c => c != '/') := by
            rcases List.mem_cons.1 h with h | h
            · exact absurd h.symm hd
            · exact h
          obtain ⟨a, b, h1, h2, h3⟩ := (ih (c :: acc)).1 h'
          refine ⟨c :: a, b, by simp [h1], ?_, ?_⟩
          · intro x hx
            rcases List.mem_cons.1 hx with hx | hx
            · subst hx; exact ⟨hd, hs⟩
            · exact h2 x hx
          · simp [extScan, hs, hd, h3]
        · intro h
          rw [htk] at h
          have h' : '.' ∉ rev.takeWhile (fun c => c != '/') := fun hc => h (List.mem_cons_of_mem _ hc)
          simp [extScan, hs, hd, (ih (c :: acc)).2 h']

/-- Over a list whose first element failing `p` is `x`, `takeWhile` and
`dropWhile` split right before `x`. -/
theorem takeWhile_append_of_forall {α : Type} (p : α → Bool) (a : List α) (x : α) (b : List α)
    (ha : ∀ c ∈ a, p c = true) (hx : p x = false) :
    (a ++ x :: b).takeWhile p = a ∧ (a ++ x :: b).dropWhile p = x :: b := by
  induction a with
  | nil => simp [List.takeWhile, List.dropWhile, hx]
  | cons c a ih =>
    have hc := ha c (List.mem_cons_self _ _)
    have ih' := ih (fun y hy => ha y (List.mem_cons_of_mem _ hy))
    simp [List.takeWhile, List.dropWhile, hc, ih'.1, ih'.2]

/-- The candidate of the code is the suffixed name of the specification. -/
theorem candidate_eq_suffixedName (expectedFn : String) (n : Nat) :
    candidate expectedFn
        (if (pathExt expectedFn).length > 0 then TrimSuffix expectedFn (pathExt expectedFn) else "")
        (pathExt expectedFn) n = suffixedName expectedFn n := by
  obtain ⟨l⟩ := expectedFn
  have hspec := extScan_spec l.reverse []
  by_cases hdot : '.' ∈ l.reverse.takeWhile (fun c => c != '/')
  · obtain ⟨a, b, h1, h2, h3⟩ := hspec.1 hdot
    have hl : l = b.reverse ++ '.' :: a.reverse := by
      have := congrArg List.reverse h1
      simpa using this
    have hext : pathExt ⟨l⟩ = ⟨'.' :: a.reverse⟩ := by
      simp [pathExt, h3]
    have hlen : (pathExt ⟨l⟩).length > 0 := by
      rw [hext]; simp [String.length]
    have htw := takeWhile_append_of_forall (fun c => c != '.') a '.' b
      (fun c hc => by simpa using (h2 c hc).1) (by simp)
    have hfin : '.' ∈ finalElement l := by
      simpa [finalElement] using hdot
    have hsplit : lastDotSplit l = (b.reverse, '.' :: a.reverse) := by
      simp only [lastDotSplit, h1, htw.1, htw.2, List.tail_cons]
    have htrim : TrimSuffix ⟨l⟩ ⟨'.' :: a.reverse⟩ = ⟨b.reverse⟩ := by
      have hsuf : ('.' :: a.reverse).isSuffixOf l = true := by
        rw [List.isSuffixOf_iff_suffix, hl]
        exact List.suffix_append _ _
      simp only [TrimSuffix, hsuf, if_true]
      congr 1
      rw [hl]
      simp
    rw [hext] at hlen
    simp only [candidate, suffixedName, hlen, if_true, hfin, hsplit, hext, htrim]
  · have h3 := hspec.2 hdot
    have hext : pathExt ⟨l⟩ = "" := by
      simp [pathExt, h3]
    have hfin : '.' ∉ finalElement l := by
      simpa [finalElement] using hdot
    simp [candidate, suffixedName, hext, hfin]

/-- A name that `os.Stat` reports missing is not the name of a regular file. -/
theorem Stat_errNotExist_no_file (fs : FS) (name : String) (h : fs.Stat name = .errNotExist)
    (hne : name ≠ "") (d : List UInt8) (m : Time) : fs.nodes name ≠ some (.file d m) := by
  intro hn
  unfold FS.Stat FS.follow at h
  rw [if_neg hne] at h
  split at h
  · exact StatResult.noConfusion h
  · rw [hn] at h
    exact StatResult.noConfusion h

/-- **C1.** Whenever `newNameBuilder` returns a name without error, `os.Stat`
reports at the moment of the call that no file of that name exists, and no
regular file on the disk has that name; the same holds for every name
`counterNameBuilder` returns. -/
theorem newNameBuilder_no_overwrite (rl : RotateLog) (fs : FS) :
    (∀ name, (newNameBuilder rl fs).2 = .ok name →
        ¬ fs.Exists name ∧ (name ≠ "" → ∀ d m, fs.nodes name ≠ some (.file d m))) ∧
      (∀ expectedFn name, (counterNameBuilder rl fs expectedFn).2 = .ok name →
        ¬ fs.Exists name ∧ (name ≠ "" → ∀ d m, fs.nodes name ≠ some (.file d m))) := by
  have hst : ∀ name, fs.Stat name = .errNotExist →
      ¬ fs.Exists name ∧ (name ≠ "" → ∀ d m, fs.nodes name ≠ some (.file d m)) :=
    fun name h => ⟨fun hex => hex h, fun hne d m => Stat_errNotExist_no_file fs name h hne d m⟩
  have hc : ∀ (r : RotateLog) (expectedFn name : String),
      (counterNameBuilder r fs expectedFn).2 = .ok name → fs.Stat name = .errNotExist := by
    intro r expectedFn name h
    unfold counterNameBuilder at h
    simp only at h
    split at h
    · rename_i g res hl
      simp only [Except.ok.injEq] at h
      subst h
      exact (counterLoop_some fs _ _ _ _ _ _ _ hl).2.1
    · simp at h
  refine ⟨?_, fun expectedFn name h => hst name (hc rl expectedFn name h)⟩
  intro name h
  apply hst
  unfold newNameBuilder at h
  simp only at h
  split at h
  · rename_i hcond
    simp only [Except.ok.injEq] at h
    subst h
    obtain ⟨_, hex⟩ := hcond
    by_contra hne
    apply hex
    split
    · exact absurd ‹_› hne
    · rfl
  · exact hc _ _ _ h

/-- Witness of C1: on an empty disk the time-derived name `app.log` is
adopted, and on a disk holding `app.log` and `app_1.log` the counter gives
`app_2.log`; neither exists. -/
theorem newNameBuilder_no_overwrite_witness :
    ((newNameBuilder sampleWriter (diskOf [])).2 = .ok "app.log" ∧
        ¬ (diskOf []).Exists "app.log") ∧
      ((counterNameBuilder sampleWriter sampleDisk "app.log").2 = .ok "app_2.log" ∧
        ¬ sampleDisk.Exists "app_2.log") :=
  ⟨⟨rfl, ((newNameBuilder_no_overwrite sampleWriter (diskOf [])).1 "app.log" rfl).1⟩,
    ⟨rfl,
      ((newNameBuilder_no_overwrite sampleWriter sampleDisk).2 "app.log" "app_2.log" rfl).1⟩⟩

/-- **C2.** When `counterNameBuilder` succeeds from generation `g`, it returns
the expected name with the suffix `_n` put before the extension (the name
being split on the last dot of its final path element) or appended when there
is no extension, where `n` is the smallest number in `g+1 .. g+1000` whose
candidate does not exist; afterwards `generation = n`, so `n ≥ 1` and
`generation` has not decreased. -/
theorem counterNameBuilder_spec (rl : RotateLog) (fs : FS) (expectedFn : String)
    (rl' : RotateLog) (res : String)
    (h : counterNameBuilder rl fs expectedFn = (rl', .ok res)) :
    ∃ n, rl.generation + 1 ≤ n ∧ n ≤ rl.generation + 1000 ∧
      res = suffixedName expectedFn n ∧ ¬ fs.Exists res ∧
      (∀ m, rl.generation + 1 ≤ m → m < n → fs.Exists (suffixedName expectedFn m)) ∧
      rl'.generation = n ∧ 1 ≤ n ∧ rl.generation ≤ rl'.generation := by
  unfold counterNameBuilder at h
  simp only at h
  split at h
  · rename_i g r hl
    simp only [Prod.mk.injEq, Except.ok.injEq] at h
    obtain ⟨hrl, hres⟩ := h
    subst hrl; subst hres
    obtain ⟨h1, h2, h3, h4, h5⟩ := counterLoop_some fs _ _ _ _ _ _ _ hl
    refine ⟨g, by omega, by omega, ?_, ?_, ?_, rfl, by omega, ?_⟩
    · rw [h1, candidate_eq_suffixedName]
    · simp [FS.Exists, h2]
    · intro m hm1 hm2
      have := h5 m (by omega) hm2
      rw [candidate_eq_suffixedName] at this
      exact this
    · show rl.generation ≤ g
      omega
  · simp at h

/-- Witness of C2: from generation 0 on a disk holding `app.log` and
`app_1.log`, the builder returns `app_2.log` and leaves generation 2. -/
theorem counterNameBuilder_spec_witness :
    counterNameBuilder sampleWriter sampleDisk "app.log" =
        ({ sampleWriter with generation := 2 }, .ok "app_2.log") ∧
      ∃ n, sampleWriter.generation + 1 ≤ n ∧ n ≤ sampleWriter.generation + 1000 ∧
        "app_2.log" = suffixedName "app.log" n ∧ ¬ sampleDisk.Exists "app_2.log" ∧
        (∀ m, sampleWriter.generation + 1 ≤ m → m < n →
          sampleDisk.Exists (suffixedName "app.log" m)) ∧
        ({ sampleWriter with generation := 2 } : RotateLog).generation = n ∧ 1 ≤ n ∧
        sampleWriter.generation ≤ ({ sampleWriter with generation := 2 } : RotateLog).generation :=
  ⟨rfl, counterNameBuilder_spec sampleWriter sampleDisk "app.log" _ "app_2.log" rfl⟩



/-! ## Construction -/

/-- The check of `New` on the two retention settings never fires. -/
theorem New_ne_conflictingRetention (strftimeNew : String → Option (Time → String))
    (Local : Clock) (p : String) (options : List Opt) :
    New strftimeNew Local p options ≠ .error .conflictingRetention := by
  unfold New
  simp only
  split
  · simp
  · simp

/-- The symbolic-link step leaves the set of scheduled removals alone. -/
theorem updateLink_purging (rl : RotateLog) (fs : FS) (filename : String) :
    (updateLink rl fs filename).1.purging = fs.purging := by
  unfold updateLink
  split
  · simp only
    cases hs : fs.Symlink filename (filename ++ "_symlink") with
    | none => rfl
    | some fs1 =>
      have h1 : fs1.purging = fs.purging := by
        unfold FS.Symlink at hs
        split at hs
        · simp at hs
        · simp only [Option.some.injEq] at hs
          subst hs; rfl
      simp only
      cases hr : fs1.Rename (filename ++ "_symlink") rl.linkName with
      | none => exact h1
      | some fs2 =>
        have h2 : fs2.purging = fs1.purging := by
          unfold FS.Rename at hr
          split at hr
          · simp at hr
          · split at hr
            · simp at hr
            · simp only [Option.some.injEq] at hr
              subst hr; rfl
        simp only
        rw [h2, h1]
  · rfl

/-- A rotation of a writer without purge checker schedules no removal. -/
theorem rotateNolock_no_checkers (rl : RotateLog) (fs : FS) (filename : String)
    (h : rl.purgeCheckers = []) : (rotateNolock rl fs filename).2.1.purging = fs.purging := by
  have hl := updateLink_purging rl fs filename
  unfold rotateNolock
  rcases hu : updateLink rl fs filename with ⟨fs1, _ | err⟩
  · rw [hu] at hl
    simp only at hl
    simp only
    cases fs1.glob rl.globPattern with
    | none => exact hl
    | some matched =>
      simp only [h, List.foldl_nil, Finset.card_empty, le_refl, if_true]
      exact hl
  · rw [hu] at hl
    exact hl

/-- **C3.** Evaluation at the failing input: `New` called with
`WithMaxAge(1h)` and `WithRotationCount(3)` returns no error but a writer
with both settings and both purge checkers registered. -/
theorem New_both_retention_accepted :
    ∃ rl, New constStrftime (fixedClock jan2024) "app.log"
        [WithMaxAge Hour, WithRotationCount 3] = .ok rl ∧
      rl.maxAge = Hour ∧ rl.rotationCount = 3 ∧ rl.purgeCheckers = [.age, .count] :=
  ⟨_, rfl, rfl, rfl, rfl⟩

/-- **C4.** Evaluation at the failing input: `New` called with no option
returns a writer whose `maxAge` is 0, not 7 days, and on which no purge
checker is registered, so that a rotation hands nothing to the purge. -/
theorem New_default_maxAge_zero :
    ∃ rl, New constStrftime (fixedClock jan2024) "app.log" [] = .ok rl ∧
      rl.maxAge = 0 ∧ rl.maxAge ≠ 7 * 24 * Hour ∧ rl.purgeCheckers = [] ∧
      ∀ (fs : FS) (filename : String), (rotateNolock rl fs filename).2.1.purging = fs.purging :=
  ⟨_, rfl, rfl, by decide, rfl, fun fs filename => rotateNolock_no_checkers _ fs filename rfl⟩


/-! ## Time rotation -/

/-- Options other than a rotation time leave `rotationTime` alone, and no
option removes a registered rotation predicate. -/
theorem foldl_applyOption_rotationTime (post : List Opt) (v : NewVars)
    (hpost : ∀ o ∈ post, ∀ x, o ≠ Opt.rotationTime x) :
    (post.foldl applyOption v).res.rotationTime = v.res.rotationTime ∧
      ∀ c ∈ v.res.rotationConditions, c ∈ (post.foldl applyOption v).res.rotationConditions := by
  induction post generalizing v with
  | nil => exact ⟨rfl, fun c hc => hc⟩
  | cons o post ih =>
    have ih' := ih (applyOption v o) (fun o' ho' => hpost o' (List.mem_cons_of_mem _ ho'))
    have ho := hpost o (List.mem_cons_self _ _)
    simp only [List.foldl_cons]
    cases o with
    | rotationTime x => exact absurd rfl (ho x)
    | clock c => exact ⟨ih'.1, fun c hc => ih'.2 c hc⟩
    | linkName s => exact ⟨ih'.1, fun c hc => ih'.2 c hc⟩
    | maxAge d => exact ⟨ih'.1, fun c hc => ih'.2 c hc⟩
    | rotationCount n => exact ⟨ih'.1, fun c hc => ih'.2 c hc⟩
    | rotationSize s =>
      exact ⟨ih'.1, fun c hc => ih'.2 c (by simp [applyOption, hc])⟩

/-- The vote of the time predicate: it votes exactly when the elapsed time
exceeds `rotationTime` and the name builder returns a name. -/
theorem rotationTimeCondition_vote (rl : RotateLog) (fs : FS) :
    (rotationTimeCondition rl fs).2.1 = true ↔
      rl.rotationTime < Sub (rl.clock.Now).1 rl.lastTs ∧
        ∃ s, (newNameBuilder { rl with clock := (rl.clock.Now).2 } fs).2 = .ok s := by
  unfold rotationTimeCondition
  simp only [gt_iff_lt]
  split
  · rename_i hlt
    rcases hb : newNameBuilder { rl with clock := (rl.clock.Now).2 } fs with ⟨rl1, _ | s⟩
    · simp [hb]
    · simp [hb, hlt]
  · rename_i hlt
    simp [hlt]

/-- **C5 (counterexample).** A writer built with `WithRotationTime(-5)`, or
with `WithRotationTime(0)`, has `rotationTime = 0` and its time predicate
votes to rotate, proposing `app.log`, at its first evaluation in 2024. -/
theorem rotationTime_nonpositive_votes :
    (∃ rl, New constStrftime (fixedClock jan2024) "app.log" [WithRotationTime (-5)] = .ok rl ∧
        rl.rotationTime = 0 ∧ (rotationTimeCondition rl (diskOf [])).2 = (true, "app.log")) ∧
      (∃ rl, New constStrftime (fixedClock jan2024) "app.log" [WithRotationTime 0] = .ok rl ∧
        rl.rotationTime = 0 ∧ (rotationTimeCondition rl (diskOf [])).2 = (true, "app.log")) :=
  ⟨⟨_, rfl, rfl, rfl⟩, ⟨_, rfl, rfl, rfl⟩⟩

/-- **C5 (amended).** A writer built by `New` with `WithRotationTime(d)`,
`d ≤ 0`, as its last rotation-time option has `rotationTime = 0` and the time
predicate registered; with that `rotationTime` the predicate votes to rotate
exactly when `clock.Now()` minus `lastTs` is positive and the name builder
returns a name, so it never votes while the elapsed time is zero or negative. -/
theorem rotationTime_clamped_votes (strftimeNew : String → Option (Time → String))
    (Local : Clock) (p : String) (pre post : List Opt) (d : Duration) (rl0 : RotateLog)
    (hd : d ≤ 0) (hpost : ∀ o ∈ post, ∀ x, o ≠ Opt.rotationTime x)
    (hnew : New strftimeNew Local p (pre ++ WithRotationTime d :: post) = .ok rl0) :
    rl0.rotationTime = 0 ∧ RotationPredicate.time ∈ rl0.rotationConditions ∧
      ∀ (rl : RotateLog) (fs : FS), rl.rotationTime = rl0.rotationTime →
        ((rotationTimeCondition rl fs).2.1 = true ↔
          0 < Sub (rl.clock.Now).1 rl.lastTs ∧
            ∃ s, (newNameBuilder { rl with clock := (rl.clock.Now).2 } fs).2 = .ok s) := by
  unfold New at hnew
  simp only at hnew
  split at hnew
  · simp at hnew
  · rename_i fmt hfmt
    split at hnew
    · simp at hnew
    · simp only [Except.ok.injEq] at hnew
      rw [List.foldl_append, List.foldl_cons] at hnew
      obtain ⟨h1, h2⟩ := foldl_applyOption_rotationTime post _ hpost
      rw [hnew] at h1 h2
      have hclamp : (if d < 0 then (0 : Duration) else d) = 0 := by
        split
        · rfl
        · rename_i hneg
          exact le_antisymm hd (not_lt.mp hneg)
      have hrt : rl0.rotationTime = 0 := by
        rw [h1]
        simp only [WithRotationTime, applyOption]
        exact hclamp
      refine ⟨hrt, h2 _ (by simp [WithRotationTime, applyOption]), ?_⟩
      intro rl fs hrl
      rw [rotationTimeCondition_vote, hrl, hrt]

/-- Witness of C5 (amended): the writer built with `WithRotationTime(-5)`. -/
theorem rotationTime_clamped_votes_witness :
    ∃ rl0, New constStrftime (fixedClock jan2024) "app.log"
        ([] ++ WithRotationTime (-5) :: []) = .ok rl0 ∧
      rl0.rotationTime = 0 ∧ RotationPredicate.time ∈ rl0.rotationConditions ∧
      ∀ (rl : RotateLog) (fs : FS), rl.rotationTime = rl0.rotationTime →
        ((rotationTimeCondition rl fs).2.1 = true ↔
          0 < Sub (rl.clock.Now).1 rl.lastTs ∧
            ∃ s, (newNameBuilder { rl with clock := (rl.clock.Now).2 } fs).2 = .ok s) :=
  ⟨_, rfl, rotationTime_clamped_votes constStrftime (fixedClock jan2024) "app.log" [] [] (-5) _
    (by decide) (fun o ho => absurd ho (List.not_mem_nil o)) rfl⟩


/-! ## Purge checkers -/

/-- Marking the entries of a list one by one adds the set of its entries. -/
theorem foldl_insert_eq_union (l : List String) (result : Finset String) :
    l.foldl (fun result file => insert file result) result = result ∪ l.toFinset := by
  induction l generalizing result with
  | nil => simp
  | cons a l ih =>
    simp only [List.foldl_cons, List.toFinset_cons]
    rw [ih]
    ext x
    simp only [Finset.mem_union, Finset.mem_insert, List.mem_toFinset]
    tauto

/-- **C6 (counterexample).** With `rotationCount = 1` the count checker given
the list `b.log, a.log` marks `b.log`, the first entry of the list as passed
and the lexicographically greatest path, whereas the first entry of the list
sorted ascending is `a.log`. -/
theorem fileCountChecker_takes_given_order :
    fileCountChecker { sampleWriter with rotationCount := 1 } ["b.log", "a.log"] ∅ = {"b.log"} ∧
      ((sortedAscending ["b.log", "a.log"]).take (2 - 1)).toFinset = {"a.log"} ∧
      fileCountChecker { sampleWriter with rotationCount := 1 } ["b.log", "a.log"] ∅ ≠
        ∅ ∪ ((sortedAscending ["b.log", "a.log"]).take (2 - 1)).toFinset := by
  decide

/-- **C6 (amended).** With `rotationCount > 0` the count checker adds nothing
when the list has at most `rotationCount` entries; otherwise it adds exactly
the first `length - rotationCount` entries of the list in the order the
caller passes it. Those are the first entries of the list sorted ascending
when the list is sorted already, and the last `rotationCount` entries stay
unmarked when the list has no repetition and they were not in the set. -/
theorem fileCountChecker_spec (rl : RotateLog) (files : List String) (result : Finset String)
    (h : rl.rotationCount > 0) :
    ((files.length : Int) ≤ rl.rotationCount → fileCountChecker rl files result = result) ∧
      (rl.rotationCount < (files.length : Int) →
        fileCountChecker rl files result =
            result ∪ (files.take (files.length - rl.rotationCount.toNat)).toFinset ∧
          (files.Sorted (fun a b => a.data ≤ b.data) →
            files.take (files.length - rl.rotationCount.toNat) =
              (sortedAscending files).take (files.length - rl.rotationCount.toNat)) ∧
          (files.Nodup → ∀ f ∈ files.drop (files.length - rl.rotationCount.toNat),
            f ∉ result → f ∉ fileCountChecker rl files result)) := by
  constructor
  · intro hle
    simp [fileCountChecker, h, hle]
  · intro hlt
    have heq : fileCountChecker rl files result =
        result ∪ (files.take (files.length - rl.rotationCount.toNat)).toFinset := by
      have hnot : ¬ rl.rotationCount ≥ (files.length : Int) := not_le.mpr hlt
      simp only [fileCountChecker, h, if_true, hnot, if_false]
      exact foldl_insert_eq_union _ _
    refine ⟨heq, ?_, ?_⟩
    · intro hs
      unfold sortedAscending
      rw [List.Sorted.insertionSort_eq hs]
    · intro hnd f hf hres
      rw [heq]
      simp only [Finset.mem_union, List.mem_toFinset, not_or]
      refine ⟨hres, ?_⟩
      intro hmem
      have hdisj := List.disjoint_take_drop hnd (le_refl (files.length - rl.rotationCount.toNat))
      exact hdisj hmem hf

/-- Witness of C6 (amended): three sorted paths and `rotationCount = 1`. -/
theorem fileCountChecker_spec_witness :
    ({ sampleWriter with rotationCount := 1 } : RotateLog).rotationCount > 0 ∧
      fileCountChecker { sampleWriter with rotationCount := 1 } ["a.log", "b.log", "c.log"] ∅ =
        ∅ ∪ (["a.log", "b.log", "c.log"].take (3 - 1)).toFinset :=
  ⟨by decide,
    ((fileCountChecker_spec { sampleWriter with rotationCount := 1 } ["a.log", "b.log", "c.log"] ∅
      (by decide)).2 (by decide)).1⟩


/-- Unfolding of `AgedOut` over a list with a first path. -/
theorem AgedOut_cons (rl : RotateLog) (fs : FS) (fp : String) (rest : List String) (p : String) :
    AgedOut rl fs (fp :: rest) p ↔
      (p = fp ∧ ∃ fl, fs.Lstat fp = .info fl ∧ fl.symlink = false ∧
        rl.maxAge < Sub (rl.clock.readings rl.clock.calls) fl.modTime) ∨
      AgedOut { rl with clock := ⟨rl.clock.readings, rl.clock.calls + ageReadings fs [fp]⟩ }
        fs rest p := by
  unfold AgedOut
  constructor
  · rintro ⟨i, fl, h1, h2, h3, h4⟩
    cases i with
    | zero =>
      simp only [List.get?_cons_zero, Option.some.injEq] at h1
      subst h1
      left
      exact ⟨rfl, fl, h2, h3, by simpa [ageReadings] using h4⟩
    | succ j =>
      right
      refine ⟨j, fl, by simpa using h1, h2, h3, ?_⟩
      simp only [List.take_succ_cons, ageReadings] at h4
      simpa [ageReadings, Nat.add_assoc] using h4
  · rintro (⟨hp, fl, h2, h3, h4⟩ | ⟨j, fl, h1, h2, h3, h4⟩)
    · subst hp
      exact ⟨0, fl, by simp, h2, h3, by simpa [ageReadings] using h4⟩
    · refine ⟨j + 1, fl, by simpa using h1, h2, h3, ?_⟩
      simp only [List.take_succ_cons, ageReadings]
      simpa [ageReadings, Nat.add_assoc] using h4

/-- Membership in the purge set after the age checker has run. -/
theorem fileAgeChecker_mem (fs : FS) (files : List String) (rl : RotateLog)
    (result : Finset String) (p : String) :
    p ∈ (fileAgeChecker fs rl files result).2 ↔ p ∈ result ∨ AgedOut rl fs files p := by
  induction files generalizing rl result with
  | nil => simp [fileAgeChecker, AgedOut]
  | cons fp rest ih =>
    rw [AgedOut_cons]
    unfold fileAgeChecker
    cases hl : fs.Lstat fp with
    | info fl0 =>
      by_cases hsym : fl0.symlink = true
      · simp only [hsym, if_true]
        rw [ih]
        have hr : ageReadings fs [fp] = 0 := by simp [ageReadings, hl, hsym]
        simp only [hr, Nat.add_zero]
        constructor
        · rintro (h | h)
          · exact Or.inl h
          · exact Or.inr (Or.inr h)
        · rintro (h | ⟨_, fl, h2, h3, _⟩ | h)
          · exact Or.inl h
          · simp only [StatResult.info.injEq] at h2
            subst h2
            rw [hsym] at h3
            exact absurd h3 (by decide)
          · exact Or.inr h
      · have hsym' : fl0.symlink = false := by simpa using hsym
        have hr : ageReadings fs [fp] = 1 := by simp [ageReadings, hl, hsym']
        simp only [hsym', Bool.false_eq_true, if_false, Clock.Now, hr]
        by_cases hage : Sub (rl.clock.readings rl.clock.calls) fl0.modTime > rl.maxAge
        · simp only [hage, if_true]
          rw [ih]
          simp only [Finset.mem_insert]
          constructor
          · rintro ((h | h) | h)
            · exact Or.inr (Or.inl ⟨h, fl0, rfl, hsym', hage⟩)
            · exact Or.inl h
            · exact Or.inr (Or.inr h)
          · rintro (h | ⟨h, _⟩ | h)
            · exact Or.inl (Or.inr h)
            · exact Or.inl (Or.inl h)
            · exact Or.inr h
        · simp only [hage, if_false]
          rw [ih]
          constructor
          · rintro (h | h)
            · exact Or.inl h
            · exact Or.inr (Or.inr h)
          · rintro (h | ⟨_, fl, h2, _, h4⟩ | h)
            · exact Or.inl h
            · simp only [StatResult.info.injEq] at h2
              subst h2
              exact absurd h4 hage
            · exact Or.inr h
    | errNotExist =>
      simp only
      rw [ih]
      have hr : ageReadings fs [fp] = 0 := by simp [ageReadings, hl]
      simp only [hr, Nat.add_zero]
      constructor
      · rintro (h | h)
        · exact Or.inl h
        · exact Or.inr (Or.inr h)
      · rintro (h | ⟨_, fl, h2, _⟩ | h)
        · exact Or.inl h
        · simp at h2
        · exact Or.inr h
    | errOther =>
      simp only
      rw [ih]
      have hr : ageReadings fs [fp] = 0 := by simp [ageReadings, hl]
      simp only [hr, Nat.add_zero]
      constructor
      · rintro (h | h)
        · exact Or.inl h
        · exact Or.inr (Or.inr h)
      · rintro (h | ⟨_, fl, h2, _⟩ | h)
        · exact Or.inl h
        · simp at h2
        · exact Or.inr h

/-- **C7.** The age checker puts a path in the purge set if and only if the
path was in the set already or it is a candidate on which `os.Lstat`
succeeds, which is not a symbolic link, and for which `clock.Now()` minus its
modification time is strictly greater than `maxAge`; in particular a symbolic
link is never marked, and the paths already in the set stay in it. -/
theorem fileAgeChecker_spec (rl : RotateLog) (fs : FS) (files : List String)
    (result : Finset String) :
    (∀ p, p ∈ (fileAgeChecker fs rl files result).2 ↔
        p ∈ result ∨
          ∃ i fl, files.get? i = some p ∧ fs.Lstat p = .info fl ∧ fl.symlink = false ∧
            rl.maxAge <
              Sub (rl.clock.readings (rl.clock.calls + ageReadings fs (files.take i)))
                fl.modTime) ∧
      (∀ p fl, fs.Lstat p = .info fl ∧ fl.symlink = true ∧ p ∉ result →
        p ∉ (fileAgeChecker fs rl files result).2) ∧
      result ⊆ (fileAgeChecker fs rl files result).2 := by
  refine ⟨fun p => fileAgeChecker_mem fs files rl result p, ?_, ?_⟩
  · rintro p fl ⟨h1, h2, h3⟩ hmem
    rcases (fileAgeChecker_mem fs files rl result p).1 hmem with h | ⟨i, fl', _, h5, h6, _⟩
    · exact h3 h
    · rw [h1] at h5
      simp only [StatResult.info.injEq] at h5
      subst h5
      rw [h2] at h6
      exact absurd h6 (by decide)
  · intro p hp
    exact (fileAgeChecker_mem fs files rl result p).2 (Or.inl hp)


/-- Witness of C7: of the link `current`, the fresh `new.log` and the
nine-hour-old `old.log`, with `maxAge` one hour, `old.log` is marked and the
link `current` is not. -/
theorem fileAgeChecker_spec_witness :
    "old.log" ∈ (fileAgeChecker agedDisk agedWriter ["current", "new.log", "old.log"] ∅).2 ∧
      "current" ∉ (fileAgeChecker agedDisk agedWriter ["current", "new.log", "old.log"] ∅).2 :=
  ⟨((fileAgeChecker_spec agedWriter agedDisk ["current", "new.log", "old.log"] ∅).1 "old.log").2
      (Or.inr ⟨2, ⟨0, jan2024, false⟩, rfl, rfl, rfl, by decide⟩),
    (fileAgeChecker_spec agedWriter agedDisk ["current", "new.log", "old.log"] ∅).2.1 "current"
      ⟨7, jan2024 + 9 * Hour, true⟩ ⟨rfl, rfl, by simp⟩⟩


/-! ## Writing and rotating -/

/-- The counter name builder changes the generation only. -/
theorem counterNameBuilder_fields (rl : RotateLog) (fs : FS) (expectedFn : String) :
    (counterNameBuilder rl fs expectedFn).1.curFn = rl.curFn ∧
      (counterNameBuilder rl fs expectedFn).1.outFh = rl.outFh := by
  unfold counterNameBuilder
  simp only
  split <;> exact ⟨rfl, rfl⟩

/-- The name builder changes neither the current name nor the handle. -/
theorem newNameBuilder_fields (rl : RotateLog) (fs : FS) :
    (newNameBuilder rl fs).1.curFn = rl.curFn ∧ (newNameBuilder rl fs).1.outFh = rl.outFh := by
  unfold newNameBuilder genFilename
  simp only
  split
  · exact ⟨rfl, rfl⟩
  · exact counterNameBuilder_fields _ fs _

/-- A rotation predicate changes neither the current name nor the handle. -/
theorem call_fields (c : RotationPredicate) (rl : RotateLog) (fs : FS) :
    (c.call rl fs).1.curFn = rl.curFn ∧ (c.call rl fs).1.outFh = rl.outFh := by
  cases c with
  | time =>
    simp only [RotationPredicate.call, rotationTimeCondition]
    split
    · have h := newNameBuilder_fields { rl with clock := (rl.clock.Now).2 } fs
      split
      · rename_i heq
        rw [heq] at h
        exact h
      · rename_i heq
        rw [heq] at h
        exact h
    · exact ⟨rfl, rfl⟩
  | size =>
    simp only [RotationPredicate.call, sizeCondition]
    split
    · exact ⟨rfl, rfl⟩
    · split
      · have h := newNameBuilder_fields rl fs
        split
        · rename_i heq
          rw [heq] at h
          exact h
        · rename_i heq
          rw [heq] at h
          exact h
      · exact ⟨rfl, rfl⟩
    · exact ⟨rfl, rfl⟩

/-- The evaluation of the predicates changes neither the current name nor
the handle. -/
theorem checkLoop_fields (fs : FS) (conds : List RotationPredicate) (rl : RotateLog) :
    (checkLoop fs rl conds).1.curFn = rl.curFn ∧ (checkLoop fs rl conds).1.outFh = rl.outFh := by
  induction conds generalizing rl with
  | nil => exact ⟨rfl, rfl⟩
  | cons c conds ih =>
    unfold checkLoop
    have h := call_fields c rl fs
    split
    · rename_i heq
      rw [heq] at h
      exact h
    · rename_i rl1 _ heq
      rw [heq] at h
      have h2 := ih rl1
      exact ⟨h2.1.trans h.1, h2.2.trans h.2⟩

/-- When no predicate votes, `getWriter_nolock` hands back the handle the
writer holds and touches neither the disk nor the current name. -/
theorem getWriter_nolock_no_vote (rl : RotateLog) (fs : FS) (bail : Bool)
    (h : (checkConditions rl fs).2.1 = false) :
    getWriter_nolock rl fs bail = ((checkConditions rl fs).1, fs, .ok rl.outFh) := by
  have hf := checkLoop_fields fs rl.rotationConditions rl
  unfold getWriter_nolock
  rcases hc : checkConditions rl fs with ⟨rl1, b, filename⟩
  rw [hc] at h
  simp only at h
  subst h
  simp only
  have : rl1.outFh = rl.outFh := by
    have := hf.2
    unfold checkConditions at hc
    rw [hc] at this
    exact this
  rw [this]


/-- **C8 (counterexample).** A writer with an hourly time predicate writes
two bytes to `app.log` and is closed; a write two hours later does not fail:
the time predicate votes, `app_1.log` is created, becomes the current name
and receives the byte. -/
theorem write_after_close_reopens :
    New constStrftime (fixedClock 0) "app.log"
        [WithClock steppingClock, WithRotationTime Hour] = .ok hourlyWriter ∧
      firstWrite.2.2 = .ok 2 ∧ firstWrite.1.curFn = "app.log" ∧
      firstWrite.1.outFh = some "app.log" ∧ closedWriter.outFh = none ∧
      firstWrite.2.1.nodes "app_1.log" = none ∧
      secondWrite.2.2 = .ok 1 ∧ secondWrite.1.curFn = "app_1.log" ∧
      secondWrite.1.outFh = some "app_1.log" ∧
      secondWrite.2.1.nodes "app_1.log" = some (.file [33] 0) :=
  ⟨rfl, rfl, rfl, rfl, rfl, rfl, rfl, rfl, rfl, rfl⟩

/-- When a predicate votes and the proposed file cannot be opened,
`getWriter_nolock` returns the open error and leaves the disk alone. -/
theorem getWriter_nolock_open_fails (rl : RotateLog) (fs : FS) (bail : Bool)
    (rl1 : RotateLog) (filename : String)
    (hcheck : checkConditions rl fs = (rl1, true, filename))
    (hopen : fs.OpenFile filename = none) :
    getWriter_nolock rl fs bail = (rl1, fs, .error (.openFailed filename)) := by
  unfold getWriter_nolock
  rw [hcheck]
  simp only [hopen]

/-- When a predicate votes and the proposed file opens, the tolerant
`getWriter_nolock` swaps in the new handle and the proposed name, whatever
the side effects of the rotation did. -/
theorem getWriter_nolock_opened (rl : RotateLog) (fs : FS) (rl1 : RotateLog)
    (filename fh : String) (fs1 : FS)
    (hcheck : checkConditions rl fs = (rl1, true, filename))
    (hopen : fs.OpenFile filename = some (fh, fs1)) :
    (getWriter_nolock rl fs false).2.2 = .ok (some fh) ∧
      (getWriter_nolock rl fs false).2.1 = (rotateNolock rl1 fs1 filename).2.1 ∧
      (getWriter_nolock rl fs false).1.curFn = filename ∧
      (getWriter_nolock rl fs false).1.outFh = some fh := by
  unfold getWriter_nolock
  rw [hcheck]
  simp only [hopen]
  rcases rotateNolock rl1 fs1 filename with ⟨rl2, fs2, err⟩
  cases err <;> exact ⟨rfl, rfl, rfl, rfl⟩

/-- **C8 (amended).** After `Close()`, a `Write` at which no rotation
predicate votes to rotate fails, with the error of the nil handle: it opens
no file, writes no bytes, leaves the disk and the current name unchanged and
the handle nil.  A `Write` at which a predicate votes is not refused on
account of the `Close()`: when the proposed file opens, it becomes the
current file and the `Write` returns the result of appending the bytes to
it; when it does not open, the `Write` fails with the open error, the disk,
the current name and the nil handle being unchanged. -/
theorem write_after_close_spec (rl : RotateLog) (fs : FS) (p : List UInt8) :
    ((checkConditions (Close rl).1 fs).2.1 = false →
        (Write (Close rl).1 fs p).2.2 = .error .invalid ∧ (Write (Close rl).1 fs p).2.1 = fs ∧
          (Write (Close rl).1 fs p).1.curFn = rl.curFn ∧
          (Write (Close rl).1 fs p).1.outFh = none) ∧
      ∀ rl1 filename, checkConditions (Close rl).1 fs = (rl1, true, filename) →
        (fs.OpenFile filename = none →
          (Write (Close rl).1 fs p).2.2 = .error (.openFailed filename) ∧
            (Write (Close rl).1 fs p).2.1 = fs ∧
            (Write (Close rl).1 fs p).1.curFn = rl.curFn ∧
            (Write (Close rl).1 fs p).1.outFh = none) ∧
        ∀ fh fs1, fs.OpenFile filename = some (fh, fs1) →
          (Write (Close rl).1 fs p).1.curFn = filename ∧
            (Write (Close rl).1 fs p).1.outFh = some fh ∧
            (Write (Close rl).1 fs p).2.2 =
              ((rotateNolock rl1 fs1 filename).2.1.Append fh p).2 ∧
            (Write (Close rl).1 fs p).2.1 =
              ((rotateNolock rl1 fs1 filename).2.1.Append fh p).1 := by
  have hclose : (Close rl).1.outFh = none ∧ (Close rl).1.curFn = rl.curFn := by
    unfold Close
    split
    · rename_i hn
      exact ⟨hn, rfl⟩
    · exact ⟨rfl, rfl⟩
  have hf := checkLoop_fields fs (Close rl).1.rotationConditions (Close rl).1
  refine ⟨?_, ?_⟩
  · intro h
    have hg := getWriter_nolock_no_vote (Close rl).1 fs false h
    rw [hclose.1] at hg
    unfold Write
    rw [hg]
    simp only
    exact ⟨trivial, trivial, hf.1.trans hclose.2, hf.2.trans hclose.1⟩
  · intro rl1 filename hcheck
    have hcheck' : checkLoop fs (Close rl).1 (Close rl).1.rotationConditions =
        (rl1, true, filename) := hcheck
    rw [hcheck'] at hf
    refine ⟨?_, ?_⟩
    · intro hopen
      have hg := getWriter_nolock_open_fails (Close rl).1 fs false rl1 filename hcheck hopen
      unfold Write
      rw [hg]
      exact ⟨rfl, rfl, hf.1.trans hclose.2, hf.2.trans hclose.1⟩
    · intro fh fs1 hopen
      obtain ⟨h1, h2, h3, h4⟩ :=
        getWriter_nolock_opened (Close rl).1 fs rl1 filename fh fs1 hcheck hopen
      unfold Write
      rcases hg : getWriter_nolock (Close rl).1 fs false with ⟨rl2, fs2, r⟩
      rw [hg] at h1 h2 h3 h4
      simp only at h1 h2 h3 h4
      subst h1
      subst h2
      exact ⟨h3, h4, rfl, rfl⟩

/-- Witness of C8 (amended): the closed writer with its clock put back to the
instant of the rotation, where no predicate votes; the closed writer two
hours later, where the time predicate votes and `app_1.log` opens; and the
same on a disk where no file can be opened. -/
theorem write_after_close_spec_witness :
    ((checkConditions (Close { firstWrite.1 with clock := fixedClock jan2024 }).1
          firstWrite.2.1).2.1 = false ∧
        (Write (Close { firstWrite.1 with clock := fixedClock jan2024 }).1 firstWrite.2.1
          [33]).2.2 = .error .invalid) ∧
      ((Write (Close firstWrite.1).1 firstWrite.2.1 [33]).1.curFn = "app_1.log" ∧
        (Write (Close firstWrite.1).1 firstWrite.2.1 [33]).2.2 = .ok 1) ∧
      ((Write (Close firstWrite.1).1 { firstWrite.2.1 with openFails := fun _ => true }
          [33]).2.2 = .error (.openFailed "app_1.log") ∧
        (Write (Close firstWrite.1).1 { firstWrite.2.1 with openFails := fun _ => true }
          [33]).1.curFn = "app.log") := by
  have h1 := (write_after_close_spec { firstWrite.1 with clock := fixedClock jan2024 }
    firstWrite.2.1 [33]).1 rfl
  have h2 := ((write_after_close_spec firstWrite.1 firstWrite.2.1 [33]).2 _ "app_1.log" rfl).2
    "app_1.log" _ rfl
  have h3 := ((write_after_close_spec firstWrite.1
    { firstWrite.2.1 with openFails := fun _ => true } [33]).2 _ "app_1.log" rfl).1 rfl
  exact ⟨⟨rfl, h1.1⟩, ⟨h2.1, h2.2.2.1.trans rfl⟩, ⟨h3.1, h3.2.2.1.trans rfl⟩⟩

/-- When the expected name collides and the thousand candidates after the
current generation all exist, the name builder gives up: it returns the
exhaustion error and leaves `generation` advanced by 1000. -/
theorem newNameBuilder_exhausted (rl : RotateLog) (fs : FS)
    (hcol : rl.curFn = rl.pattern (rl.clock.Now).1 ∨ fs.Exists (rl.pattern (rl.clock.Now).1))
    (hall : ∀ m, rl.generation + 1 ≤ m → m ≤ rl.generation + 1000 →
      fs.Exists (suffixedName (rl.pattern (rl.clock.Now).1) m)) :
    newNameBuilder rl fs =
      ({ rl with clock := (rl.clock.Now).2, generation := rl.generation + 1000 },
        .error (.nameExhausted (rl.pattern (rl.clock.Now).1))) := by
  have hloop := counterLoop_exhausted fs (rl.pattern (rl.clock.Now).1)
    (if (pathExt (rl.pattern (rl.clock.Now).1)).length > 0 then
      TrimSuffix (rl.pattern (rl.clock.Now).1) (pathExt (rl.pattern (rl.clock.Now).1)) else "")
    (pathExt (rl.pattern (rl.clock.Now).1)) 1000 rl.generation
    (fun m h1 h2 => by
      rw [candidate_eq_suffixedName]
      exact hall m (by omega) h2)
  unfold newNameBuilder genFilename
  simp only
  split
  · rename_i hcond
    obtain ⟨hne, hex⟩ := hcond
    rcases hcol with hc | hc
    · exact absurd hc hne
    · exfalso
      apply hex
      unfold FS.Exists at hc
      split
      · rename_i hst
        exact absurd hst hc
      · rfl
  · unfold counterNameBuilder
    simp only
    rw [hloop]

/-- A forced rotation of a writer whose only predicate is the time predicate,
at a moment when the predicate is due, the expected name collides and all
thousand candidates exist: the predicate does not vote and `Rotate` returns
no error, the disk being untouched. -/
theorem Rotate_exhausted (rl : RotateLog) (fs : FS)
    (hconds : rl.rotationConditions = [.time])
    (hdue : rl.rotationTime < Sub (rl.clock.readings rl.clock.calls) rl.lastTs)
    (hcol : rl.curFn = rl.pattern (rl.clock.readings (rl.clock.calls + 1)) ∨
      fs.Exists (rl.pattern (rl.clock.readings (rl.clock.calls + 1))))
    (hall : ∀ m, rl.generation + 1 ≤ m → m ≤ rl.generation + 1000 →
      fs.Exists (suffixedName (rl.pattern (rl.clock.readings (rl.clock.calls + 1))) m)) :
    Rotate rl fs =
      ({ rl with
          clock := ⟨rl.clock.readings, rl.clock.calls + 2⟩
          generation := rl.generation + 1000 }, fs, none) := by
  have hb := newNameBuilder_exhausted { rl with clock := (rl.clock.Now).2 } fs hcol hall
  have hvote : rotationTimeCondition rl fs =
      ({ rl with
          clock := ⟨rl.clock.readings, rl.clock.calls + 2⟩
          generation := rl.generation + 1000 }, false, "") := by
    unfold rotationTimeCondition
    simp only [gt_iff_lt]
    split
    · rw [hb]
      rfl
    · rename_i hnot
      exact absurd hdue hnot
  unfold Rotate getWriter_nolock checkConditions
  rw [hconds]
  simp only [checkLoop, RotationPredicate.call, hvote]
  rw [hconds]

/-- The suffixed names of `app.log`. -/
theorem suffixedName_app (m : Nat) :
    suffixedName "app.log" m = "app_" ++ toString m ++ ".log" := by
  unfold suffixedName
  rw [if_pos (by decide)]
  rfl

/-- On the crowded disk each of the thousand candidates of `app.log` exists. -/
theorem crowdedDisk_exists (m : Nat) (h1 : 1 ≤ m) (h2 : m ≤ 1000) :
    crowdedDisk.Exists (suffixedName "app.log" m) := by
  rw [suffixedName_app]
  have hmem : "app_" ++ toString m ++ ".log" ∈ counterNames := by
    unfold counterNames
    refine List.mem_map.2 ⟨m - 1, List.mem_range.2 (by omega), ?_⟩
    have : m - 1 + 1 = m := by omega
    simp only [this]
  have hne : "app_" ++ toString m ++ ".log" ≠ "" := by
    intro h
    have := congrArg String.length h
    simp only [String.length_append] at this
    have hlog : (".log" : String).length = 4 := by decide
    have hnil : ("" : String).length = 0 := by decide
    rw [hlog, hnil] at this
    omega
  unfold FS.Exists FS.Stat
  unfold FS.follow
  have hnodes : crowdedDisk.nodes ("app_" ++ toString m ++ ".log") = some (.file [] 0) := by
    simp [crowdedDisk, hmem]
  have hden : crowdedDisk.denied ("app_" ++ toString m ++ ".log") = false := rfl
  simp [hne, hnodes, hden]

/-- At the start of 2024 more than an hour has elapsed since the zero time. -/
theorem hourlyWriter_due :
    hourlyWriter.rotationTime < Sub (hourlyWriter.clock.readings hourlyWriter.clock.calls)
      hourlyWriter.lastTs := by
  show Hour < Sub jan2024 0
  norm_num [Hour, Sub, jan2024, maxDuration, minDuration]

/-- **C9 (counterexample).** The time predicate of a fresh hourly writer is
due, `app.log` and its thousand candidates `app_1.log` ... `app_1000.log`
exist, the name builder fails with the exhaustion error, and yet the forced
`Rotate()` returns no error. -/
theorem rotate_exhausted_returns_nil :
    hourlyWriter.rotationTime < Sub (hourlyWriter.clock.Now).1 hourlyWriter.lastTs ∧
      crowdedDisk.Exists "app.log" ∧
      (∀ m, 1 ≤ m → m ≤ 1000 → crowdedDisk.Exists (suffixedName "app.log" m)) ∧
      (newNameBuilder { hourlyWriter with clock := (hourlyWriter.clock.Now).2 } crowdedDisk).2 =
        .error (.nameExhausted "app.log") ∧
      (Rotate hourlyWriter crowdedDisk).2.2 = none := by
  have hex : crowdedDisk.Exists "app.log" := by
    have hst : crowdedDisk.Stat "app.log" = .info ⟨0, 0, false⟩ := rfl
    unfold FS.Exists
    rw [hst]
    exact fun h => StatResult.noConfusion h
  have hdue : hourlyWriter.rotationTime < Sub (hourlyWriter.clock.Now).1 hourlyWriter.lastTs :=
    hourlyWriter_due
  refine ⟨hdue, hex, crowdedDisk_exists, ?_, ?_⟩
  · rw [newNameBuilder_exhausted { hourlyWriter with clock := (hourlyWriter.clock.Now).2 }
      crowdedDisk (Or.inr hex)
      (fun m h1 h2 => crowdedDisk_exists m (by simpa using h1) (by simpa using h2))]
    rfl
  · rw [Rotate_exhausted hourlyWriter crowdedDisk rfl hdue (Or.inr hex)
      (fun m h1 h2 => crowdedDisk_exists m (by simpa using h1) (by simpa using h2))]

/-- Predicates that do not vote hand the decision to those registered after
them, on the writer as they left it. -/
theorem checkLoop_append (fs : FS) (pre rest : List RotationPredicate) (rl rl1 : RotateLog)
    (s : String) (h : checkLoop fs rl pre = (rl1, false, s)) :
    checkLoop fs rl (pre ++ rest) = checkLoop fs rl1 rest := by
  induction pre generalizing rl with
  | nil =>
    simp only [checkLoop, Prod.mk.injEq] at h
    rw [h.1]
    rfl
  | cons c pre ih =>
    simp only [List.cons_append, checkLoop] at h ⊢
    rcases hc : c.call rl fs with ⟨r, b, f⟩
    rw [hc] at h
    cases b with
    | true => simp at h
    | false =>
      simp only at h ⊢
      exact ih r h

/-- When the time predicate is due, the expected name collides and the
thousand candidates all exist, the predicate does not vote and leaves
`generation` advanced by 1000. -/
theorem rotationTimeCondition_exhausted (rl : RotateLog) (fs : FS)
    (hdue : rl.rotationTime < Sub (rl.clock.readings rl.clock.calls) rl.lastTs)
    (hcol : rl.curFn = rl.pattern (rl.clock.readings (rl.clock.calls + 1)) ∨
      fs.Exists (rl.pattern (rl.clock.readings (rl.clock.calls + 1))))
    (hall : ∀ m, rl.generation + 1 ≤ m → m ≤ rl.generation + 1000 →
      fs.Exists (suffixedName (rl.pattern (rl.clock.readings (rl.clock.calls + 1))) m)) :
    rotationTimeCondition rl fs =
      ({ rl with
          clock := ⟨rl.clock.readings, rl.clock.calls + 2⟩
          generation := rl.generation + 1000 }, false, "") := by
  have hb := newNameBuilder_exhausted { rl with clock := (rl.clock.Now).2 } fs hcol hall
  unfold rotationTimeCondition
  simp only [gt_iff_lt]
  split
  · rw [hb]
    rfl
  · rename_i hnot
    exact absurd hdue hnot

/-- The symbolic-link step fails only with the symlink or the rename error. -/
theorem updateLink_error (rl : RotateLog) (fs : FS) (filename : String) (err : Error)
    (h : (updateLink rl fs filename).2 = some err) :
    err = .symlinkFailed ∨ err = .renameFailed := by
  unfold updateLink at h
  split at h
  · simp only at h
    split at h
    · simp only [Option.some.injEq] at h
      exact Or.inl h.symm
    · split at h
      · simp only [Option.some.injEq] at h
        exact Or.inr h.symm
      · simp at h
  · simp at h

/-- The side effects of a rotation never fail with the exhaustion error. -/
theorem rotateNolock_error (rl : RotateLog) (fs : FS) (filename : String) (err : Error)
    (h : (rotateNolock rl fs filename).2.2 = some err) :
    err = .symlinkFailed ∨ err = .renameFailed ∨ err = .globFailed := by
  have hl := updateLink_error rl fs filename
  unfold rotateNolock at h
  rcases hu : updateLink rl fs filename with ⟨fs1, _ | e⟩
  · rw [hu] at h
    simp only at h
    cases hg : fs1.glob rl.globPattern with
    | none =>
      rw [hg] at h
      simp only [Option.some.injEq] at h
      exact Or.inr (Or.inr h.symm)
    | some matched =>
      rw [hg] at h
      simp only at h
      split at h <;> simp at h
  · rw [hu] at h hl
    simp only [Option.some.injEq] at h
    subst h
    rcases hl e rfl with h1 | h1
    · exact Or.inl h1
    · exact Or.inr (Or.inl h1)

/-- No call of `getWriter_nolock`, hence no `Rotate()` and no `Write`, returns
the exhaustion error of the name builder. -/
theorem getWriter_nolock_ne_nameExhausted (rl : RotateLog) (fs : FS) (bail : Bool)
    (expectedFn : String) :
    (getWriter_nolock rl fs bail).2.2 ≠ .error (.nameExhausted expectedFn) := by
  unfold getWriter_nolock
  rcases checkConditions rl fs with ⟨rl1, b, filename⟩
  cases b with
  | false => simp
  | true =>
    simp only
    cases ho : fs.OpenFile filename with
    | none => simp
    | some r =>
      obtain ⟨fh, fs1⟩ := r
      simp only
      have hk := rotateNolock_error rl1 fs1 filename
      rcases hr : rotateNolock rl1 fs1 filename with ⟨rl2, fs2, err⟩
      rw [hr] at hk
      cases err with
      | none => simp
      | some e =>
        cases bail with
        | false => simp
        | true =>
          simp only [ne_eq, Except.error.injEq]
          intro he
          subst he
          rcases hk _ rfl with h | h | h <;> exact Error.noConfusion h

/-- A forced rotation never returns the exhaustion error. -/
theorem Rotate_ne_nameExhausted (rl : RotateLog) (fs : FS) (expectedFn : String) :
    (Rotate rl fs).2.2 ≠ some (.nameExhausted expectedFn) := by
  have h := getWriter_nolock_ne_nameExhausted rl fs true expectedFn
  unfold Rotate
  rcases hg : getWriter_nolock rl fs true with ⟨rl1, fs1, r⟩
  rw [hg] at h
  cases r with
  | error e =>
    simp only [ne_eq, Option.some.injEq]
    intro he
    subst he
    exact h rfl
  | ok w => simp

/-- On the crowded disk `app.log` exists. -/
theorem crowdedDisk_exists_app : crowdedDisk.Exists "app.log" := by
  have hst : crowdedDisk.Stat "app.log" = .info ⟨0, 0, false⟩ := rfl
  unfold FS.Exists
  rw [hst]
  exact fun h => StatResult.noConfusion h

/-- **C9 (amended).** When the time predicate comes to be evaluated (the
predicates registered before it not voting), it is due, the expected name
collides (it is the current name or exists) and all 1000 counter candidates
exist, the name builder fails with the exhaustion error, but the predicate
turns it into "no rotation needed" and the decision passes to the predicates
registered after it, `generation` being 1000 higher.  A forced `Rotate()`
never returns the exhaustion error, on any writer and disk; when none of the
remaining predicates votes it returns no error and leaves the disk, the
current name and the handle unchanged. -/
theorem rotate_exhaustion_swallowed (rl : RotateLog) (fs : FS)
    (pre rest : List RotationPredicate) (rl1 : RotateLog) (s : String)
    (hconds : rl.rotationConditions = pre ++ RotationPredicate.time :: rest)
    (hpre : checkLoop fs rl pre = (rl1, false, s))
    (hdue : rl1.rotationTime < Sub (rl1.clock.readings rl1.clock.calls) rl1.lastTs)
    (hcol : rl1.curFn = rl1.pattern (rl1.clock.readings (rl1.clock.calls + 1)) ∨
      fs.Exists (rl1.pattern (rl1.clock.readings (rl1.clock.calls + 1))))
    (hall : ∀ m, rl1.generation + 1 ≤ m → m ≤ rl1.generation + 1000 →
      fs.Exists (suffixedName (rl1.pattern (rl1.clock.readings (rl1.clock.calls + 1))) m)) :
    (newNameBuilder { rl1 with clock := (rl1.clock.Now).2 } fs).2 =
        .error (.nameExhausted (rl1.pattern (rl1.clock.readings (rl1.clock.calls + 1)))) ∧
      rotationTimeCondition rl1 fs =
        ({ rl1 with
            clock := ⟨rl1.clock.readings, rl1.clock.calls + 2⟩
            generation := rl1.generation + 1000 }, false, "") ∧
      checkConditions rl fs =
        checkLoop fs
          { rl1 with
            clock := ⟨rl1.clock.readings, rl1.clock.calls + 2⟩
            generation := rl1.generation + 1000 } rest ∧
      (∀ expectedFn, (Rotate rl fs).2.2 ≠ some (.nameExhausted expectedFn)) ∧
      ((checkLoop fs
            { rl1 with
              clock := ⟨rl1.clock.readings, rl1.clock.calls + 2⟩
              generation := rl1.generation + 1000 } rest).2.1 = false →
        Rotate rl fs =
            ((checkLoop fs
              { rl1 with
                clock := ⟨rl1.clock.readings, rl1.clock.calls + 2⟩
                generation := rl1.generation + 1000 } rest).1, fs, none) ∧
          (Rotate rl fs).1.curFn = rl.curFn ∧ (Rotate rl fs).1.outFh = rl.outFh) := by
  have hb := newNameBuilder_exhausted { rl1 with clock := (rl1.clock.Now).2 } fs hcol hall
  have hvote := rotationTimeCondition_exhausted rl1 fs hdue hcol hall
  have hcc : checkConditions rl fs =
      checkLoop fs
        { rl1 with
          clock := ⟨rl1.clock.readings, rl1.clock.calls + 2⟩
          generation := rl1.generation + 1000 } rest := by
    unfold checkConditions
    rw [hconds, checkLoop_append fs pre _ rl rl1 s hpre]
    simp only [checkLoop, RotationPredicate.call, hvote]
  refine ⟨?_, hvote, hcc, fun expectedFn => Rotate_ne_nameExhausted rl fs expectedFn, ?_⟩
  · rw [hb]
    rfl
  · intro hrest
    have hv : (checkConditions rl fs).2.1 = false := by
      rw [hcc]
      exact hrest
    have hg := getWriter_nolock_no_vote rl fs true hv
    have hf := checkLoop_fields fs rl.rotationConditions rl
    have hr : Rotate rl fs = ((checkConditions rl fs).1, fs, none) := by
      unfold Rotate
      rw [hg]
    rw [hr]
    refine ⟨?_, hf.1, hf.2⟩
    rw [hcc]

/-- Witness of C9 (amended): on the crowded disk, the writer that holds
`app.log` as its current file with the time predicate alone, and a fresh
writer with the time predicate followed by the size predicate. -/
theorem rotate_exhaustion_swallowed_witness :
    ((Rotate { hourlyWriter with curFn := "app.log", outFh := some "app.log" } crowdedDisk).2.2 =
          none ∧
        (Rotate { hourlyWriter with curFn := "app.log", outFh := some "app.log" }
          crowdedDisk).1.generation = 1000) ∧
      ((Rotate { hourlyWriter with rotationSize := 100, rotationConditions := [.time, .size] }
          crowdedDisk).2.2 = none ∧
        (Rotate { hourlyWriter with rotationSize := 100, rotationConditions := [.time, .size] }
          crowdedDisk).1.curFn = "") := by
  have h1 := (rotate_exhaustion_swallowed
    { hourlyWriter with curFn := "app.log", outFh := some "app.log" } crowdedDisk [] [] _ ""
    rfl rfl hourlyWriter_due (Or.inl rfl)
    (fun m h1 h2 => crowdedDisk_exists m (by simpa using h1) (by simpa using h2))).2.2.2.2 rfl
  have h2 := (rotate_exhaustion_swallowed
    { hourlyWriter with rotationSize := 100, rotationConditions := [.time, .size] } crowdedDisk
    [] [.size] _ "" rfl rfl hourlyWriter_due (Or.inr crowdedDisk_exists_app)
    (fun m h1 h2 => crowdedDisk_exists m (by simpa using h1) (by simpa using h2))).2.2.2.2 rfl
  exact ⟨⟨(congrArg (fun w => w.2.2) h1.1).trans rfl,
      (congrArg (fun w => w.1.generation) h1.1).trans rfl⟩,
    ⟨(congrArg (fun w => w.2.2) h2.1).trans rfl, h2.2.1.trans rfl⟩⟩

/-- The empty path names no file: `os.Stat` fails on it with `os.ErrNotExist`. -/
theorem Stat_empty (fs : FS) : fs.Stat "" = .errNotExist := by
  unfold FS.Stat FS.follow
  simp

/-- Before a first file is open the size predicate, alone, never votes and
leaves the writer as it is. -/
theorem checkConditions_size_unopened (rl : RotateLog) (fs : FS)
    (hc : rl.rotationConditions = [.size]) (hcur : rl.curFn = "") :
    checkConditions rl fs = (rl, false, "") := by
  have hs : sizeCondition rl fs = (rl, false, "") := by
    unfold sizeCondition
    rw [hcur, Stat_empty]
  unfold checkConditions
  rw [hc]
  simp only [checkLoop, RotationPredicate.call, hs]

/-- **C10.** Evaluation at the failing input: the writer built with
`WithRotationSize(100)` alone is returned without error in the unopened state,
and on every disk every `Write` through it fails with the error of the nil
handle, leaving the writer and the disk as they were; on the empty disk no
file `app.log` comes to exist and the current name stays empty. -/
theorem first_write_size_only_fails :
    New constStrftime (fixedClock jan2024) "app.log" [WithRotationSize 100] = .ok sizeOnlyWriter ∧
      sizeOnlyWriter.outFh = none ∧ sizeOnlyWriter.curFn = "" ∧
      (∀ (fs : FS) (p : List UInt8), Write sizeOnlyWriter fs p = (sizeOnlyWriter, fs, .error .invalid)) ∧
      CurrentFileName (Write sizeOnlyWriter (diskOf []) [104, 105]).1 = "" ∧
      (Write sizeOnlyWriter (diskOf []) [104, 105]).2.1.nodes "app.log" = none := by
  refine ⟨rfl, rfl, rfl, ?_, rfl, rfl⟩
  intro fs p
  have hcheck := checkConditions_size_unopened sizeOnlyWriter fs rfl rfl
  have hg := getWriter_nolock_no_vote sizeOnlyWriter fs false (by rw [hcheck])
  rw [hcheck] at hg
  unfold Write
  rw [hg]
  rfl


/-! ## Scenario S1 -/

/-- **C11.** Scenario S1: with the pattern `log_%Y%m%d.log`, `rotationTime`
of 10 seconds, an empty directory and a clock that starts at 2024-01-01
00:00:00 and advances 11 seconds between writes, three writes succeed and set
the current name to `log_20240101.log`, `log_20240101_1.log` and
`log_20240101_2.log` with generation 0, 1 and 2; the event offered at each
rotation carries the previous and the new name, and each file holds the byte
written to it. -/
theorem scenario_S1 :
    New utcStrftime (fixedClock 0) "log_%Y%m%d.log"
        [WithClock (fixedClock jan2024), WithRotationTime (10 * Second)] = .ok s1Writer ∧
      s1Writer.globPattern = "log_*.log" ∧ CurrentFileName s1Writer = "" ∧
      (s1Write1.2.2 = .ok 1 ∧ CurrentFileName s1Write1.1 = "log_20240101.log" ∧
        s1Write1.1.generation = 0) ∧
      (s1Write2.2.2 = .ok 1 ∧ CurrentFileName s1Write2.1 = "log_20240101_1.log" ∧
        s1Write2.1.generation = 1) ∧
      (s1Write3.2.2 = .ok 1 ∧ CurrentFileName s1Write3.1 = "log_20240101_2.log" ∧
        s1Write3.1.generation = 2) ∧
      s1Write1.1.notified = [⟨"", "log_20240101.log"⟩] ∧
      s1Write2.1.notified =
        [⟨"", "log_20240101.log"⟩, ⟨"log_20240101.log", "log_20240101_1.log"⟩] ∧
      s1Write3.1.notified =
        [⟨"", "log_20240101.log"⟩, ⟨"log_20240101.log", "log_20240101_1.log"⟩,
          ⟨"log_20240101_1.log", "log_20240101_2.log"⟩] ∧
      s1Write3.2.1.nodes "log_20240101.log" = some (.file [97] 0) ∧
      s1Write3.2.1.nodes "log_20240101_1.log" = some (.file [98] 0) ∧
      s1Write3.2.1.nodes "log_20240101_2.log" = some (.file [99] 0) :=
  ⟨rfl, rfl, rfl, ⟨rfl, rfl, rfl⟩, ⟨rfl, rfl, rfl⟩, ⟨rfl, rfl, rfl⟩, rfl, rfl, rfl, rfl, rfl, rfl⟩


/-! ## Failure of the symbolic-link update -/

/-- **C12.** When a predicate votes to rotate, the proposed file opens and
the symbolic-link update (the `os.Symlink` or the `os.Rename`) fails, `Write`
does not fail because of it: the new handle and the proposed name are
swapped in, the event is offered, and the result is that of appending the
bytes; a forced `Rotate()` returns the error and leaves the current name and
the handle as they were.  So `getWriter_nolock` returns the error of the
side effect if and only if `bailOnRotateFail` is true. -/
theorem symlink_failure_handling (rl : RotateLog) (fs : FS) (p : List UInt8)
    (rl1 : RotateLog) (filename fh : String) (fs1 fs2 : FS) (err : Error)
    (hcheck : checkConditions rl fs = (rl1, true, filename))
    (hopen : fs.OpenFile filename = some (fh, fs1))
    (hlink : updateLink rl1 fs1 filename = (fs2, some err)) :
    (err = .symlinkFailed ∨ err = .renameFailed) ∧
      Write rl fs p =
        ({ rl1 with
            outFh := some fh
            curFn := filename
            lastTs := (rl1.clock.Now).1
            clock := (rl1.clock.Now).2
            notified := rl1.notified ++ [⟨rl1.curFn, filename⟩] },
          (fs2.Append fh p).1, (fs2.Append fh p).2) ∧
      Rotate rl fs = (rl1, fs2, some err) ∧
      (Rotate rl fs).1.curFn = rl.curFn ∧ (Rotate rl fs).1.outFh = rl.outFh ∧
      ∀ b, getWriter_nolock rl fs b = (rl1, fs2, .error err) ↔ b = true := by
  have hkind : err = .symlinkFailed ∨ err = .renameFailed := by
    unfold updateLink at hlink
    split at hlink
    · simp only at hlink
      split at hlink
      · simp only [Prod.mk.injEq, Option.some.injEq] at hlink
        exact Or.inl hlink.2.symm
      · split at hlink
        · simp only [Prod.mk.injEq, Option.some.injEq] at hlink
          exact Or.inr hlink.2.symm
        · simp at hlink
    · simp at hlink
  have hrot : rotateNolock rl1 fs1 filename = (rl1, fs2, some err) := by
    unfold rotateNolock
    rw [hlink]
  have hfields := checkLoop_fields fs rl.rotationConditions rl
  have hcheck' : checkLoop fs rl rl.rotationConditions = (rl1, true, filename) := hcheck
  rw [hcheck'] at hfields
  have hbail : getWriter_nolock rl fs true = (rl1, fs2, .error err) := by
    unfold getWriter_nolock
    rw [hcheck]
    simp only [hopen, hrot]
  have hgo : getWriter_nolock rl fs false =
      ({ rl1 with
          outFh := some fh
          curFn := filename
          lastTs := (rl1.clock.Now).1
          clock := (rl1.clock.Now).2
          notified := rl1.notified ++ [⟨rl1.curFn, filename⟩] }, fs2, .ok (some fh)) := by
    unfold getWriter_nolock
    rw [hcheck]
    simp only [hopen, hrot]
  refine ⟨hkind, ?_, ?_, ?_, ?_, ?_⟩
  · unfold Write
    rw [hgo]
  · unfold Rotate
    rw [hbail]
  · unfold Rotate
    rw [hbail]
    exact hfields.1
  · unfold Rotate
    rw [hbail]
    exact hfields.2
  · intro b
    cases b with
    | true => exact ⟨fun _ => rfl, fun _ => hbail⟩
    | false =>
      constructor
      · intro h
        rw [hgo] at h
        simp at h
      · intro h
        exact absurd h (by decide)

/-- Witness of C12: the hourly writer with a link name on a disk where
`os.Symlink` fails, and on a disk where `os.Rename` fails. -/
theorem symlink_failure_handling_witness :
    ((Write linkWriter noSymlinkDisk [33]).2.2 = .ok 1 ∧
        (Write linkWriter noSymlinkDisk [33]).1.curFn = "app.log" ∧
        (Rotate linkWriter noSymlinkDisk).2.2 = some .symlinkFailed ∧
        (Rotate linkWriter noSymlinkDisk).1.curFn = "") ∧
      ((Write linkWriter noRenameDisk [33]).2.2 = .ok 1 ∧
        (Rotate linkWriter noRenameDisk).2.2 = some .renameFailed ∧
        (Rotate linkWriter noRenameDisk).1.curFn = "") := by
  have h1 := symlink_failure_handling linkWriter noSymlinkDisk [33] _ "app.log" "app.log" _ _
    .symlinkFailed rfl rfl rfl
  have h2 := symlink_failure_handling linkWriter noRenameDisk [33] _ "app.log" "app.log" _ _
    .renameFailed rfl rfl rfl
  exact ⟨⟨(congrArg (fun w => w.2.2) h1.2.1).trans rfl,
      (congrArg (fun w => w.1.curFn) h1.2.1).trans rfl,
      (congrArg (fun w => w.2.2) h1.2.2.1).trans rfl, h1.2.2.2.1.trans rfl⟩,
    ⟨(congrArg (fun w => w.2.2) h2.2.1).trans rfl,
      (congrArg (fun w => w.2.2) h2.2.2.1).trans rfl, h2.2.2.2.1.trans rfl⟩⟩


/-! ## Glob mask -/

/-- A character other than `%` is kept by the replacement of the specifiers. -/
theorem replaceAllSpecifiers_cons_ne (c : Char) (tl : List Char) (hc : c ≠ '%') :
    replaceAllSpecifiers (c :: tl) = c :: replaceAllSpecifiers tl := by
  cases tl with
  | nil => simp [replaceAllSpecifiers]
  | cons d rest => simp [replaceAllSpecifiers, hc]

/-- The scan with a pending flag computes the replacement of the specifiers. -/
theorem replaceSpecifiers_eq (l : List Char) :
    replaceSpecifiers false l = replaceAllSpecifiers l ∧
      replaceSpecifiers true l = replaceAllSpecifiers ('%' :: l) := by
  induction l with
  | nil => simp [replaceSpecifiers, replaceAllSpecifiers]
  | cons c tl ih =>
    constructor
    · by_cases hc : c = '%'
      · subst hc
        simp only [replaceSpecifiers, if_true]
        exact ih.2
      · simp only [replaceSpecifiers, hc, if_false]
        rw [ih.1, replaceAllSpecifiers_cons_ne c tl hc]
    · by_cases hs : isSpecifierChar c = true
      · simp only [replaceSpecifiers, hs, if_true]
        rw [ih.1]
        simp [replaceAllSpecifiers, hs]
      · have hc : c ≠ '%' := by
          intro h
          subst h
          exact hs (by decide)
        simp only [replaceSpecifiers, hs]
        rw [ih.1]
        simp [replaceAllSpecifiers, hs, replaceAllSpecifiers_cons_ne c tl hc]

/-- A character other than `*` is kept by the collapse of the runs. -/
theorem collapseAllStars_cons_ne (c : Char) (tl : List Char) (hc : c ≠ '*') :
    collapseAllStars (c :: tl) = c :: collapseAllStars tl := by
  cases tl with
  | nil => simp [collapseAllStars]
  | cons d rest => simp [collapseAllStars, hc]

/-- The scan with a run flag computes the collapse of the runs of stars. -/
theorem collapseStars_eq (l : List Char) :
    collapseStars false l = collapseAllStars l ∧
      '*' :: collapseStars true l = collapseAllStars ('*' :: l) := by
  induction l with
  | nil => simp [collapseStars, collapseAllStars]
  | cons c tl ih =>
    by_cases hc : c = '*'
    · subst hc
      constructor
      · simp only [collapseStars, if_true, Bool.false_eq_true, if_false]
        exact ih.2
      · simp only [collapseStars, if_true]
        rw [ih.2]
        simp [collapseAllStars]
    · constructor
      · simp only [collapseStars, hc, if_false]
        rw [ih.1, collapseAllStars_cons_ne c tl hc]
      · simp only [collapseStars, hc, if_false]
        rw [ih.1]
        simp [collapseAllStars, hc, collapseAllStars_cons_ne c tl hc]

/-- After the replacement no conversion specifier is left. -/
theorem hasSpecifier_replaceSpecifiers (l : List Char) (pending : Bool) :
    hasSpecifier (replaceSpecifiers pending l) = false := by
  induction l generalizing pending with
  | nil => cases pending <;> simp [replaceSpecifiers, hasSpecifier, headIsSpecifierChar]
  | cons c tl ih =>
    cases pending with
    | false =>
      by_cases hc : c = '%'
      · subst hc
        simp only [replaceSpecifiers, if_true]
        exact ih true
      · simp only [replaceSpecifiers, hc, if_false]
        simp [hasSpecifier, hc, ih false]
    | true =>
      by_cases hs : isSpecifierChar c = true
      · simp only [replaceSpecifiers, hs, if_true]
        simp [hasSpecifier, ih false]
      · have hc : c ≠ '%' := by
          intro h
          subst h
          exact hs (by decide)
        simp only [replaceSpecifiers, hs]
        simp [hasSpecifier, headIsSpecifierChar, hs, hc, ih false]

/-- Outside a run, the collapse keeps the class of the first character. -/
theorem headIsSpecifierChar_collapseStars (l : List Char) :
    headIsSpecifierChar (collapseStars false l) = headIsSpecifierChar l := by
  cases l with
  | nil => rfl
  | cons c tl =>
    by_cases hc : c = '*'
    · subst hc
      simp [collapseStars, headIsSpecifierChar]
    · simp [collapseStars, hc, headIsSpecifierChar]

/-- The collapse of the runs of stars brings no conversion specifier about. -/
theorem hasSpecifier_collapseStars (l : List Char) (inRun : Bool)
    (h : hasSpecifier l = false) : hasSpecifier (collapseStars inRun l) = false := by
  induction l generalizing inRun with
  | nil => simp [collapseStars, hasSpecifier]
  | cons c tl ih =>
    simp only [hasSpecifier, Bool.or_eq_false_iff, Bool.and_eq_false_imp, beq_iff_eq] at h
    obtain ⟨h1, h2⟩ := h
    by_cases hc : c = '*'
    · subst hc
      cases inRun with
      | true =>
        simp only [collapseStars, if_true]
        exact ih true h2
      | false =>
        simp only [collapseStars, if_true, Bool.false_eq_true, if_false]
        simp [hasSpecifier, ih true h2]
    · simp only [collapseStars, hc, if_false]
      simp only [hasSpecifier, Bool.or_eq_false_iff, Bool.and_eq_false_imp, beq_iff_eq]
      refine ⟨fun hp => ?_, ih false h2⟩
      rw [headIsSpecifierChar_collapseStars]
      exact h1 hp

/-- After the collapse no two stars are adjacent, and the text that follows
a star of the run does not begin with a star. -/
theorem hasStarRun_collapseStars (l : List Char) :
    (∀ inRun, hasStarRun (collapseStars inRun l) = false) ∧
      headIsStar (collapseStars true l) = false := by
  induction l with
  | nil => simp [collapseStars, hasStarRun, headIsStar]
  | cons c tl ih =>
    by_cases hc : c = '*'
    · subst hc
      refine ⟨fun inRun => ?_, ?_⟩
      · cases inRun with
        | true =>
          simp only [collapseStars, if_true]
          exact ih.1 true
        | false =>
          simp only [collapseStars, if_true, Bool.false_eq_true, if_false]
          simp [hasStarRun, ih.1 true, ih.2]
      · simp only [collapseStars, if_true]
        exact ih.2
    · refine ⟨fun inRun => ?_, ?_⟩
      · simp only [collapseStars, hc, if_false]
        simp [hasStarRun, hc, ih.1 false]
      · simp only [collapseStars, hc, if_false]
        simp [headIsStar, hc]

/-- A text without conversion specifier is left alone by the replacement. -/
theorem replaceSpecifiers_of_no_specifier (l : List Char) (h : hasSpecifier l = false) :
    replaceSpecifiers false l = l ∧
      (headIsSpecifierChar l = false → replaceSpecifiers true l = '%' :: l) := by
  induction l with
  | nil => simp [replaceSpecifiers]
  | cons c tl ih =>
    simp only [hasSpecifier, Bool.or_eq_false_iff, Bool.and_eq_false_imp, beq_iff_eq] at h
    obtain ⟨h1, h2⟩ := h
    obtain ⟨ih1, ih2⟩ := ih h2
    constructor
    · by_cases hc : c = '%'
      · subst hc
        simp only [replaceSpecifiers, if_true]
        exact ih2 (h1 rfl)
      · simp only [replaceSpecifiers, hc, if_false]
        rw [ih1]
    · intro hh
      have hs : isSpecifierChar c = false := hh
      simp only [replaceSpecifiers, hs, Bool.false_eq_true, if_false]
      rw [ih1]

/-- A text without two adjacent stars is left alone by the collapse. -/
theorem collapseStars_of_no_run (l : List Char) (h : hasStarRun l = false) :
    collapseStars false l = l ∧ (headIsStar l = false → collapseStars true l = l) := by
  induction l with
  | nil => simp [collapseStars]
  | cons c tl ih =>
    simp only [hasStarRun, Bool.or_eq_false_iff, Bool.and_eq_false_imp, beq_iff_eq] at h
    obtain ⟨h1, h2⟩ := h
    obtain ⟨ih1, ih2⟩ := ih h2
    constructor
    · by_cases hc : c = '*'
      · subst hc
        simp only [collapseStars, if_true, Bool.false_eq_true, if_false]
        rw [ih2 (h1 rfl)]
      · simp only [collapseStars, hc, if_false]
        rw [ih1]
    · intro hh
      have hc : c ≠ '*' := by
        intro hc
        subst hc
        simp [headIsStar] at hh
      simp only [collapseStars, hc, if_false]
      rw [ih1]

/-- No option changes the glob mask. -/
theorem foldl_applyOption_globPattern (options : List Opt) (v : NewVars) :
    (options.foldl applyOption v).res.globPattern = v.res.globPattern := by
  induction options generalizing v with
  | nil => rfl
  | cons o options ih =>
    simp only [List.foldl_cons]
    rw [ih]
    cases o <;> rfl

/-- The conversion is the replacement of the specifiers followed by the
collapse of the runs of stars. -/
theorem globMask_data (p : String) :
    (globMask p).data = collapseStars false (replaceSpecifiers false p.data) := rfl

/-- **C13.** The glob mask `New` computes for a pattern is the pattern with
each conversion specifier (a `%` followed by `%`, `+` or an ASCII letter)
replaced by `*` and each run of `*` then collapsed into one; the mask holds
no conversion specifier and no two adjacent `*`, and the same conversion
applied to the mask returns the mask. -/
theorem globPattern_spec (strftimeNew : String → Option (Time → String)) (Local : Clock)
    (p : String) (options : List Opt) (rl : RotateLog)
    (h : New strftimeNew Local p options = .ok rl) :
    rl.globPattern = globMask p ∧
      rl.globPattern.data = collapseAllStars (replaceAllSpecifiers p.data) ∧
      hasSpecifier rl.globPattern.data = false ∧ hasStarRun rl.globPattern.data = false ∧
      globMask rl.globPattern = rl.globPattern := by
  have hmask : rl.globPattern = globMask p := by
    unfold New at h
    simp only at h
    split at h
    · simp at h
    · split at h
      · simp at h
      · simp only [Except.ok.injEq] at h
        rw [← h, foldl_applyOption_globPattern]
        rfl
  have hspec : hasSpecifier (globMask p).data = false := by
    rw [globMask_data]
    exact hasSpecifier_collapseStars _ false (hasSpecifier_replaceSpecifiers p.data false)
  have hrun : hasStarRun (globMask p).data = false := by
    rw [globMask_data]
    exact (hasStarRun_collapseStars _).1 false
  rw [hmask]
  refine ⟨rfl, ?_, hspec, hrun, ?_⟩
  · rw [globMask_data, (replaceSpecifiers_eq p.data).1, (collapseStars_eq _).1]
  · apply String.ext
    rw [globMask_data (globMask p), (replaceSpecifiers_of_no_specifier _ hspec).1,
      (collapseStars_of_no_run _ hrun).1]

/-- Witness of C13: the pattern `%%%Y**_%d*%1.log` gives the mask `*_*%1.log`. -/
theorem globPattern_spec_witness :
    ∃ rl, New constStrftime (fixedClock 0) "%%%Y**_%d*%1.log" [WithRotationSize 100] = .ok rl ∧
      rl.globPattern = "*_*%1.log" ∧
      hasSpecifier rl.globPattern.data = false ∧ hasStarRun rl.globPattern.data = false ∧
      globMask rl.globPattern = rl.globPattern :=
  ⟨_, rfl, rfl,
    (globPattern_spec constStrftime (fixedClock 0) "%%%Y**_%d*%1.log" [WithRotationSize 100] _
      rfl).2.2⟩

end RotateLogHook
